import Mathlib

/-
Verification development for the move-generation core of the Dagor chess
engine (bitboard representation, attack tables, legal move generator,
make/unmake, static evaluation).

The definitions below are a shallow embedding of the C++ sources:
  src/src/bitboard.h     - 64-bit square sets and their iterator
  src/src/game_state.cpp - move generator, executeMove/undoMove, FEN input
  src/src/eval.cpp       - static evaluator
  src/movetables.h       - interface of the precomputed attack tables

Machine integers are modelled as Nat, truncated with explicit masks where
the C++ works modulo 2^64.  The attack-table contents (movetables.cpp),
types.h and game_state.h are not part of the sources; the definitions
embedding them are marked `Modelled from the spec:` and follow the
specification document.
-/

set_option maxRecDepth 8000

namespace Dagor

/-- All 64 bits set: the value of `~0ULL` / `BitBoards::all` and the mask that
truncates Nat arithmetic to the 64-bit range of a C++ `uint64_t`. -/
def mask64 : Nat := 0xffffffffffffffff

/-- BitBoards::single: a board with one square set (`1ULL << square`). -/
def single (square : Nat) : Nat := 1 <<< square

/-- C++ `~` on a `uint64_t`, i.e. complement within 64 bits. -/
def compl64 (b : Nat) : Nat := mask64 ^^^ b

/-- BitBoard::set_bit / setSquare: `board |= 1ULL << square`. -/
def setSquare (b square : Nat) : Nat := b ||| single square

/-- BitBoard::unset_bit / unsetSquare: `board &= ~(1ULL << square)`. -/
def unsetSquare (b square : Nat) : Nat := b &&& compl64 (single square)

/-- BitBoard::popcount / populationCount (`__builtin_popcountll`): the number
of set squares of a 64-bit board. -/
def populationCount (b : Nat) : Nat :=
  ((List.range 64).filter (fun i => b.testBit i)).length

/-- Helper for findFirstSet: scan bits `i, i+1, ...` (with fuel) for the first
set bit. -/
def ffsAux (b : Nat) : Nat → Nat → Nat
  | _, 0 => 64
  | i, fuel + 1 => if b.testBit i then i else ffsAux b (i + 1) fuel

/-- BitBoard::findFirstSet (`__builtin_ctzll`): index of the lowest set bit.
The C++ builtin is undefined on the empty board (the sources guard every
call); the model returns 64 there. -/
def findFirstSet (b : Nat) : Nat := ffsAux b 0 64

/-- One step of BitBoard::Iterator::operator++: after yielding `index`, keep
only the bits strictly above `index`, saturating to the empty board instead
of shifting by 64 (bitboard.h lines 108-120). -/
def iterStep (board index : Nat) : Nat :=
  if 63 ≤ index then 0
  else board &&& ((mask64 <<< (index + 1)) &&& mask64)

/-- The loop `for (auto sq : board)`, with fuel (the C++ loop terminates
because every step clears at least one bit; 64 steps suffice for a 64-bit
board). -/
def iterGo : Nat → Nat → List Nat
  | 0, _ => []
  | fuel + 1, board =>
    if board = 0 then []
    else findFirstSet board :: iterGo fuel (iterStep board (findFirstSet board))

/-- Iterating a BitBoard from begin() to end(): the list of squares yielded. -/
def iterate (board : Nat) : List Nat := iterGo 64 board

/-- Coord::inRange: a file or rank coordinate is valid iff it lies in 0..7.
The coordinate type is modelled as Int so that the underflowing arguments the
sources produce (for example `rightOf(file - 1)` at file 0) keep their
C++ meaning of falling outside every switch case. -/
def inRangeCoord (x : Int) : Bool := 0 ≤ x && x < 8

/-- Square::file (square mod 8). -/
def Square.file (s : Nat) : Nat := s % 8

/-- Square::rank (square divided by 8; `Coord::width = 8`). -/
def Square.rank (s : Nat) : Nat := s / 8

/-- Square::noSquare, the sentinel for an absent square. -/
def Square.noSquare : Nat := 64

/-- BitBoards::rightOf: the switch over files from bitboard.h lines 168-189.
Every argument outside 0..7 falls into the `default` case and yields the
empty board. -/
def rightOf (file : Int) : Nat :=
  if file = 0 then 0xfefefefefefefefe
  else if file = 1 then 0xfcfcfcfcfcfcfcfc
  else if file = 2 then 0xf8f8f8f8f8f8f8f8
  else if file = 3 then 0xf0f0f0f0f0f0f0f0
  else if file = 4 then 0xe0e0e0e0e0e0e0e0
  else if file = 5 then 0xc0c0c0c0c0c0c0c0
  else if file = 6 then 0x8080808080808080
  else if file = 7 then 0
  else 0

/-- BitBoards::leftOf: `~rightOf(file - 1)` (bitboard.h line 191). -/
def leftOf (file : Int) : Nat := compl64 (rightOf (file - 1))

/-- BitBoards::above: `all << ((rank + 1) * 8)` truncated to 64 bits.
For rank 7 the C++ shift amount is 64, which is undefined behaviour; the
64-bit truncation used here makes that case the empty board. -/
def above (rank : Int) : Nat := (mask64 <<< ((rank + 1) * 8).toNat) &&& mask64

/-- BitBoards::below: `all >> ((rank - 1) * 8)` (bitboard.h lines 198-201).
For rank 0 the C++ shift amount is negative, which is undefined behaviour;
`Int.toNat` maps it to a shift by 0 here. -/
def below (rank : Int) : Nat := mask64 >>> ((rank - 1) * 8).toNat

/-- Colors: white and black. -/
inductive Color
  | white
  | black
deriving DecidableEq

/-- Color::opponent (`1 - c`). -/
def Color.opponent : Color → Color
  | .white => .black
  | .black => .white

/-- Piece kinds.  The sentinel `Piece::empty` of the C++ sources is modelled
as `Option Piece` wherever a square can be vacant. -/
inductive Piece
  | pawn
  | knight
  | bishop
  | rook
  | queen
  | king
deriving DecidableEq

/-- Piece::all, in the iteration order pawn, knight, bishop, rook, queen,
king. -/
def Piece.all : List Piece :=
  [.pawn, .knight, .bishop, .rook, .queen, .king]

/-- Piece::nonKing: the five piece kinds iterated by the generator and the
evaluator. -/
def Piece.nonKing : List Piece :=
  [.pawn, .knight, .bishop, .rook, .queen]

/-- A board with the square at the given file and rank set, or empty if the
coordinates leave the board (BitBoard::set_bit_if_index_valid). -/
def squareIfValid (file rank : Int) : Nat :=
  if inRangeCoord file && inRangeCoord rank then single (file + 8 * rank).toNat
  else 0

/-- Modelled from the spec: MoveTables::pawnAttacks (movetables.cpp is not
under src/).  Pawn attacks are the one-diagonal-forward squares only, with
boundary clipping; for a white pawn on rank 7 (or a black pawn on rank 0)
the set is empty. -/
def pawnAttacksB (c : Color) (square : Nat) : Nat :=
  let f : Int := Square.file square
  let r : Int := Square.rank square
  let dr : Int := match c with | .white => 1 | .black => -1
  squareIfValid (f - 1) (r + dr) ||| squareIfValid (f + 1) (r + dr)

/-- Modelled from the spec: MoveTables::knightMoves, straightforward geometry
with boundary clipping. -/
def knightMovesB (square : Nat) : Nat :=
  let f : Int := Square.file square
  let r : Int := Square.rank square
  squareIfValid (f + 1) (r + 2) ||| squareIfValid (f - 1) (r + 2) |||
  squareIfValid (f + 2) (r + 1) ||| squareIfValid (f - 2) (r + 1) |||
  squareIfValid (f + 2) (r - 1) ||| squareIfValid (f - 2) (r - 1) |||
  squareIfValid (f + 1) (r - 2) ||| squareIfValid (f - 1) (r - 2)

/-- Modelled from the spec: MoveTables::kingMoves, the eight neighbouring
squares with boundary clipping (castling is not part of the table). -/
def kingMovesB (square : Nat) : Nat :=
  let f : Int := Square.file square
  let r : Int := Square.rank square
  squareIfValid (f - 1) (r - 1) ||| squareIfValid f (r - 1) |||
  squareIfValid (f + 1) (r - 1) ||| squareIfValid (f - 1) r |||
  squareIfValid (f + 1) r ||| squareIfValid (f - 1) (r + 1) |||
  squareIfValid f (r + 1) ||| squareIfValid (f + 1) (r + 1)

/-- One ray of a sliding piece: walk from (f, r) in direction (df, dr),
collecting squares until the edge of the board or the first blocker
(which is included).  Seven steps of fuel cover the whole board. -/
def walkRay (occ : Nat) : Int → Int → Int → Int → Nat → Nat
  | _, _, _, _, 0 => 0
  | f, r, df, dr, fuel + 1 =>
    let fn := f + df
    let rn := r + dr
    if inRangeCoord fn && inRangeCoord rn then
      let s := (fn + 8 * rn).toNat
      single s ||| (if occ.testBit s then 0 else walkRay occ fn rn df dr fuel)
    else 0

/-- Modelled from the spec: `MoveTables::rookHashes[square].lookUp(blockers)`.
The magic-hash table lookup returns the squares reachable along the four
rook rays, stopping at and including the first blocker of each ray
(occupancy of excluded edge squares cannot change the result, so plain
ray-tracing realizes the lookup contract). -/
def rookLookup (square occ : Nat) : Nat :=
  let f : Int := Square.file square
  let r : Int := Square.rank square
  walkRay occ f r 0 1 7 ||| walkRay occ f r 0 (-1) 7 |||
  walkRay occ f r 1 0 7 ||| walkRay occ f r (-1) 0 7

/-- Modelled from the spec: `MoveTables::bishopHashes[square].lookUp(blockers)`,
the four diagonal rays with first blockers included. -/
def bishopLookup (square occ : Nat) : Nat :=
  let f : Int := Square.file square
  let r : Int := Square.rank square
  walkRay occ f r 1 1 7 ||| walkRay occ f r 1 (-1) 7 |||
  walkRay occ f r (-1) 1 7 ||| walkRay occ f r (-1) (-1) 7

/-- A move record: start square, destination square, optional promotion
piece (the spec data model; equality is structural). `end` is a Lean
keyword, hence the field name `endSq`. -/
structure Move where
  start : Nat
  endSq : Nat
  promotion : Option Piece := none
deriving DecidableEq

/-- The classification stored in an UndoInfo record. -/
inductive MoveFlags
  | none
  | enPassant
  | whiteKingSide
  | whiteQueenSide
  | blackKingSide
  | blackQueenSide
  | promotion
deriving DecidableEq

/-- UndoInfo: the journal record needed to reverse one move. -/
structure UndoInfo where
  piece : Option Piece
  capture : Option Piece
  start : Nat
  endSq : Nat
  enPassant : Nat
  castlingRights : Nat
  uneventfulHalfMoves : Nat
  flags : MoveFlags
deriving DecidableEq

/-- CastlingRights flag bits (a 4-bit flag set; the concrete bit assignment
of types.h is immaterial, only its consistency is used). -/
def CastlingRights.whiteKingSide : Nat := 1

def CastlingRights.whiteQueenSide : Nat := 2

def CastlingRights.blackKingSide : Nat := 4

def CastlingRights.blackQueenSide : Nat := 8

/-- Modelled from the spec: the canonical king-move representation of the
four castles (game_state.h is not under src/).  Squares: e1=4, g1=6, c1=2,
e8=60, g8=62, c8=58. -/
def wkCastle : Move := { start := 4, endSq := 6 }

/-- White queen-side castle, e1 to c1. -/
def wqCastle : Move := { start := 4, endSq := 2 }

/-- Black king-side castle, e8 to g8. -/
def bkCastle : Move := { start := 60, endSq := 62 }

/-- Black queen-side castle, e8 to c8. -/
def bqCastle : Move := { start := 60, endSq := 58 }

/-- The position: 12 piece-color bitboards, side to move, castling rights,
en passant square, halfmove clock and the undo journal (the Position data
model of the spec; game_state.h is not under src/). -/
structure GameState where
  pieces : Piece → Color → Nat
  next : Color
  castlingRights : Nat
  enPassantSquare : Nat
  uneventfulHalfMoves : Nat
  undoStack : List UndoInfo

/-- GameState::forPiece: the bitboard of one (piece, color) pair. -/
def GameState.forPiece (st : GameState) (p : Piece) (c : Color) : Nat :=
  st.pieces p c

/-- GameState::forColor: the union of one color's six boards. -/
def GameState.forColor (st : GameState) (c : Color) : Nat :=
  st.pieces .pawn c ||| st.pieces .knight c ||| st.pieces .bishop c |||
  st.pieces .rook c ||| st.pieces .queen c ||| st.pieces .king c

/-- GameState::occupancy: all occupied squares. -/
def GameState.occupancy (st : GameState) : Nat :=
  st.forColor .white ||| st.forColor .black

/-- GameState::us: the side to move. -/
def GameState.us (st : GameState) : Color := st.next

/-- GameState::them: the opponent of the side to move. -/
def GameState.them (st : GameState) : Color := st.next.opponent

/-- Modelled from the spec: GameState::getPiece (game_state.h is not under
src/) - the kind of the piece occupying a square, `Piece::empty` (none)
for a vacant square.  On boards satisfying the disjointness invariant the
scan order is irrelevant. -/
def GameState.getPiece (st : GameState) (square : Nat) : Option Piece :=
  Piece.all.find? fun p =>
    (st.pieces p .white ||| st.pieces p .black).testBit square

/-- Modelled from the spec: the board mutation of GameState::set
(game_state.h is not under src/) - add a piece of the given kind and color
on a square. -/
def boardsSet (bs : Piece → Color → Nat) (square : Nat) (p : Piece)
    (c : Color) : Piece → Color → Nat :=
  fun q d =>
    if q = p ∧ d = c then setSquare (bs q d) square else bs q d

/-- Modelled from the spec: the board mutation of GameState::unset
(game_state.h is not under src/) - clear a square on all twelve boards. -/
def boardsUnset (bs : Piece → Color → Nat) (square : Nat) :
    Piece → Color → Nat :=
  fun q d => unsetSquare (bs q d) square

/-- GameState::set as a state transformer. -/
def GameState.set (st : GameState) (square : Nat) (p : Piece) (c : Color) :
    GameState :=
  { st with pieces := boardsSet st.pieces square p c }

/-- GameState::unset as a state transformer. -/
def GameState.unset (st : GameState) (square : Nat) : GameState :=
  { st with pieces := boardsUnset st.pieces square }

/-- enPassantCapture (game_state.cpp lines 10-16): the square of the pawn
captured en passant - one rank above the en-passant square if that square
is on rank 2, one rank below otherwise. -/
def enPassantCapture (enPassantSquare : Nat) : Nat :=
  if Square.rank enPassantSquare = 2 then enPassantSquare + 8
  else enPassantSquare - 8

/-- The C++ expression `1UL << e`.  For e outside 0..63 the C++ shift is
undefined behaviour (see claim C10); the model makes those cases the empty
board, which is the behaviour the callers rely on. -/
def shiftOne (e : Int) : Nat :=
  if 0 ≤ e ∧ e < 64 then 1 <<< e.toNat else 0

/-- The shift amount `square + offset` of the pawn single push in
GameState::getMoves (game_state.cpp line 29), where the offset is
`Square::north = 8` for white and `Square::south = -8` for black. -/
def pawnPushShift (c : Color) (square : Nat) : Int :=
  (square : Int) + (match c with | .white => 8 | .black => -8)

/-- GameState::getMoves (game_state.cpp lines 19-56): pseudo-legal
destination squares of one piece, ignoring pins and checks but already
excluding squares occupied by pieces of its own color.  En passant and
castling are not included. -/
def GameState.getMoves (st : GameState) (piece : Piece) (color : Color)
    (square : Nat) (occupancy : Nat) : Nat :=
  let moves : Nat :=
    match piece with
    | .pawn =>
      let offset : Int := match color with | .white => 8 | .black => -8
      let canDoubleStep : Bool :=
        match color with
        | .white => Square.rank square = 1
        | .black => Square.rank square = 6
      let m1 := shiftOne ((square : Int) + offset) &&& compl64 occupancy
      let m2 :=
        if canDoubleStep && !(m1 = 0) then
          m1 ||| (shiftOne ((square : Int) + 2 * offset) &&& compl64 occupancy)
        else m1
      m2 ||| (pawnAttacksB color square &&& occupancy)
    | .knight => knightMovesB square
    | .king => kingMovesB square
    | .bishop => bishopLookup square occupancy
    | .rook => rookLookup square occupancy
    | .queen => bishopLookup square occupancy ||| rookLookup square occupancy
  moves &&& compl64 (st.forColor color)

/-- GameState::getMoves with the default occupancy of the whole position. -/
def GameState.getMovesD (st : GameState) (piece : Piece) (color : Color)
    (square : Nat) : Nat :=
  st.getMoves piece color square st.occupancy

/-- GameState::getAttacks (game_state.cpp lines 63-71): all enemy pieces
attacking a square, found by the symmetric-leaper trick: for each piece
kind, place it on the square with the defender's color and intersect its
pseudo-moves with the enemy's board of that kind. -/
def GameState.getAttacks (st : GameState) (square : Nat) (color : Color)
    (occupancy : Nat) : Nat :=
  Piece.all.foldl
    (fun acc piece =>
      acc ||| (st.getMoves piece color square occupancy &&&
               st.forPiece piece color.opponent))
    0

/-- GameState::getAttacks with the default occupancy. -/
def GameState.getAttacksD (st : GameState) (square : Nat) (color : Color) :
    Nat :=
  st.getAttacks square color st.occupancy

/-- The body of GameState::isCheck for an explicit color: whether the king
of that color is attacked (game_state.cpp lines 78-82 with `us()`
generalized to a parameter). -/
def GameState.inCheckFor (st : GameState) (c : Color) : Bool :=
  let kingSquare := findFirstSet (st.forPiece .king c)
  !(st.getAttacksD kingSquare c = 0)

/-- GameState::isCheck: whether the side to move is in check. -/
def GameState.isCheck (st : GameState) : Bool := st.inCheckFor st.us

/-- The mutable analysis state of MoveGenerator: number of checkers, the
target mask, the pinned squares and the pin rays (the C++ unordered_map
with its default-constructed empty-board entries is a total function). -/
structure GenCtx where
  attacksOnKing : Nat
  targets : Nat
  pins : Nat
  pinRays : Nat → Nat

/-- MoveGenerator::handleLeaperAttacks (game_state.cpp lines 291-298). -/
def handleLeaperAttacks (st : GameState) (myColor : Color) (kingSquare : Nat)
    (ctx : GenCtx) (piece : Piece) : GenCtx :=
  let attacks := st.getMovesD piece myColor kingSquare &&&
                 st.forPiece piece myColor.opponent
  if !(attacks = 0) then
    { ctx with
      attacksOnKing := ctx.attacksOnKing + populationCount attacks,
      targets := ctx.targets &&& attacks }
  else ctx

/-- MoveGenerator::handleSliderRay (game_state.cpp lines 271-289). -/
def handleSliderRay (st : GameState) (myColor : Color) (ctx : GenCtx)
    (opponentSliders ray : Nat) : GenCtx :=
  let attackers := opponentSliders &&& ray
  if attackers = 0 then ctx
  else
    let ourBlockers := ray &&& st.forColor myColor
    if !(attackers = 0) then
      if ourBlockers = 0 then
        { ctx with
          attacksOnKing := ctx.attacksOnKing + populationCount attackers,
          targets := ctx.targets &&& ray }
      else if populationCount ourBlockers = 1 ∧ ctx.attacksOnKing ≤ 1 then
        { ctx with
          pins := ctx.pins ||| ourBlockers,
          pinRays := fun s =>
            if s = findFirstSet ourBlockers then ray else ctx.pinRays s }
      else ctx
    else ctx

/-- MoveGenerator::handleSliderAttacks (game_state.cpp lines 231-269): split
the rook and bishop reachability from the king (computed against the enemy
occupancy only) into the four cardinal rays and four diagonal quadrants,
and feed each to handleSliderRay. -/
def handleSliderAttacks (st : GameState) (myColor : Color) (kingSquare : Nat)
    (ctx : GenCtx) : GenCtx :=
  let bishopQueen := st.forPiece .bishop myColor.opponent |||
                     st.forPiece .queen myColor.opponent
  let rookQueen := st.forPiece .rook myColor.opponent |||
                   st.forPiece .queen myColor.opponent
  let rookAttacks := rookLookup kingSquare (st.forColor myColor.opponent)
  let upper := rookAttacks &&& above (Square.rank kingSquare)
  let left := rookAttacks &&& leftOf (Square.file kingSquare)
  let lower := rookAttacks &&& below (Square.rank kingSquare)
  let right := rookAttacks &&& rightOf (Square.file kingSquare)
  let ctx := handleSliderRay st myColor ctx rookQueen upper
  let ctx := handleSliderRay st myColor ctx rookQueen left
  let ctx := handleSliderRay st myColor ctx rookQueen lower
  let ctx := handleSliderRay st myColor ctx rookQueen right
  let bishopAttacks := bishopLookup kingSquare (st.forColor myColor.opponent)
  let upperLeft := bishopAttacks &&& above (Square.rank kingSquare) &&&
                   leftOf (Square.file kingSquare)
  let upperRight := bishopAttacks &&& above (Square.rank kingSquare) &&&
                    rightOf (Square.file kingSquare)
  let lowerLeft := bishopAttacks &&& below (Square.rank kingSquare) &&&
                   leftOf (Square.file kingSquare)
  let lowerRight := bishopAttacks &&& below (Square.rank kingSquare) &&&
                    rightOf (Square.file kingSquare)
  let ctx := handleSliderRay st myColor ctx bishopQueen upperLeft
  let ctx := handleSliderRay st myColor ctx bishopQueen upperRight
  let ctx := handleSliderRay st myColor ctx bishopQueen lowerLeft
  handleSliderRay st myColor ctx bishopQueen lowerRight

/-- MoveGenerator::enterMoves (game_state.cpp lines 300-313): emit one move
per destination in `ends` intersected with the target mask, expanding a
pawn move onto the last rank into the four promotions. -/
def enterMoves (myColor : Color) (targets : Nat) (start : Nat) (piece : Piece)
    (ends : Nat) : List Move :=
  (iterate (ends &&& targets)).flatMap fun endSq =>
    if piece = .pawn ∧ ((myColor = .white ∧ Square.rank endSq = 7) ∨
                        (myColor = .black ∧ Square.rank endSq = 0)) then
      [{ start := start, endSq := endSq, promotion := some .knight },
       { start := start, endSq := endSq, promotion := some .bishop },
       { start := start, endSq := endSq, promotion := some .rook },
       { start := start, endSq := endSq, promotion := some .queen }]
    else [{ start := start, endSq := endSq }]

/-- MoveGenerator::standardNonPins (game_state.cpp lines 204-219): moves of
the non-king pieces; unpinned pieces move into the target mask, pinned
pieces additionally stay on their pin ray. -/
def standardNonPins (st : GameState) (myColor : Color) (ctx : GenCtx) :
    List Move :=
  Piece.nonKing.flatMap fun piece =>
    let positions := st.forPiece piece myColor
    let notPinned := positions &&& compl64 ctx.pins
    let pinned := positions &&& ctx.pins
    ((iterate notPinned).flatMap fun start =>
      enterMoves myColor ctx.targets start piece
        (st.getMovesD piece myColor start)) ++
    ((iterate pinned).flatMap fun start =>
      let ray := ctx.pinRays start
      if !(ray &&& single start = 0) then
        enterMoves myColor ctx.targets start piece
          (st.getMovesD piece myColor start &&& ray)
      else [])

/-- MoveGenerator::generateCastling (game_state.cpp lines 163-202): a castle
is emitted when the right is held, the squares between king and rook are
empty, and the two squares the king crosses are unattacked. -/
def generateCastling (st : GameState) (myColor : Color) : List Move :=
  let occupancy := st.occupancy
  match myColor with
  | .white =>
    (if st.castlingRights &&& CastlingRights.whiteQueenSide ≠ 0 ∧
        occupancy &&& 0xe = 0 ∧
        st.getAttacksD 3 .white = 0 ∧ st.getAttacksD 2 .white = 0 then
      [wqCastle]
    else []) ++
    (if st.castlingRights &&& CastlingRights.whiteKingSide ≠ 0 ∧
        occupancy &&& 0x60 = 0 ∧
        st.getAttacksD 5 .white = 0 ∧ st.getAttacksD 6 .white = 0 then
      [wkCastle]
    else [])
  | .black =>
    (if st.castlingRights &&& CastlingRights.blackQueenSide ≠ 0 ∧
        occupancy &&& 0xe00000000000000 = 0 ∧
        st.getAttacksD 59 .black = 0 ∧ st.getAttacksD 58 .black = 0 then
      [bqCastle]
    else []) ++
    (if st.castlingRights &&& CastlingRights.blackKingSide ≠ 0 ∧
        occupancy &&& 0x6000000000000000 = 0 ∧
        st.getAttacksD 61 .black = 0 ∧ st.getAttacksD 62 .black = 0 then
      [bkCastle]
    else [])

/-- MoveGenerator::enPassantCaptures (game_state.cpp lines 125-161),
including the special branch for a king on the rank of the captured pawn
with exactly one eligible capturer. -/
def enPassantCaptures (st : GameState) (myColor : Color) (kingSquare : Nat)
    (ctx : GenCtx) : List Move :=
  let electablePawns := st.getMovesD .pawn myColor.opponent st.enPassantSquare
                        &&& st.forPiece .pawn myColor
  let capturePawn := enPassantCapture st.enPassantSquare
  let targets :=
    if ctx.targets.testBit capturePawn then
      setSquare ctx.targets st.enPassantSquare
    else ctx.targets
  if Square.rank kingSquare = Square.rank capturePawn ∧
     populationCount electablePawns = 1 then
    let attackerSquare := findFirstSet electablePawns
    let occupancy := unsetSquare st.occupancy capturePawn
    let rays := st.getMoves .rook myColor kingSquare occupancy
    let ray := rays &&&
      (if kingSquare < attackerSquare then rightOf (kingSquare : Int)
       else leftOf (kingSquare : Int))
    enterMoves myColor targets attackerSquare .pawn
      (single st.enPassantSquare &&& ray)
  else
    (iterate electablePawns).flatMap fun start =>
      if ctx.pins.testBit start then
        enterMoves myColor targets start .pawn
          (single st.enPassantSquare &&& ctx.pinRays start)
      else
        enterMoves myColor targets start .pawn (single st.enPassantSquare)

/-- MoveGenerator::generatePlainKingMoves (game_state.cpp lines 221-229):
king steps onto squares that are unattacked once the king itself is
removed from the occupancy. -/
def generatePlainKingMoves (st : GameState) (myColor : Color)
    (kingSquare : Nat) : List Move :=
  let withoutKing := unsetSquare st.occupancy kingSquare
  (iterate (st.getMovesD .king myColor kingSquare)).flatMap fun endSq =>
    if st.getAttacks endSq myColor withoutKing = 0 then
      [{ start := kingSquare, endSq := endSq }]
    else []

/-- GameState::generateLegalMoves via the MoveGenerator constructor
(game_state.cpp lines 97-122, 316-318): analyse checks and pins, then emit
non-king moves (only with at most one checker), castles (only with no
checker), en-passant captures, and finally king moves. -/
def GameState.generateLegalMoves (st : GameState) : List Move :=
  let myColor := st.next
  let kingSquare := findFirstSet (st.forPiece .king myColor)
  let ctx0 : GenCtx :=
    { attacksOnKing := 0, targets := mask64, pins := 0, pinRays := fun _ => 0 }
  let ctx1 := handleLeaperAttacks st myColor kingSquare ctx0 .pawn
  let ctx2 := handleLeaperAttacks st myColor kingSquare ctx1 .knight
  let ctx := handleSliderAttacks st myColor kingSquare ctx2
  let nonKingMoves :=
    if ctx.attacksOnKing ≤ 1 then
      standardNonPins st myColor ctx ++
      (if ctx.attacksOnKing = 0 then generateCastling st myColor else []) ++
      (if st.enPassantSquare < 64 then
        enPassantCaptures st myColor kingSquare ctx
      else [])
    else []
  nonKingMoves ++ generatePlainKingMoves st myColor kingSquare

/-- UndoInfo construction (game_state.cpp lines 320-343): snapshot the
scalar fields and classify the move into en passant, one of the four
castles, a promotion, or a plain move. -/
def UndoInfo.make (st : GameState) (move : Move) : UndoInfo :=
  let piece := st.getPiece move.start
  let capture := st.getPiece move.endSq
  let base : UndoInfo :=
    { piece := piece, capture := capture, start := move.start,
      endSq := move.endSq, enPassant := st.enPassantSquare,
      castlingRights := st.castlingRights,
      uneventfulHalfMoves := st.uneventfulHalfMoves, flags := .none }
  if st.enPassantSquare = move.endSq ∧ piece = some .pawn then
    { base with flags := .enPassant, capture := some .pawn }
  else if move = wkCastle ∧ piece = some .king then
    { base with flags := .whiteKingSide }
  else if move = wqCastle ∧ piece = some .king then
    { base with flags := .whiteQueenSide }
  else if move = bkCastle ∧ piece = some .king then
    { base with flags := .blackKingSide }
  else if move = bqCastle ∧ piece = some .king then
    { base with flags := .blackQueenSide }
  else if move.promotion ≠ none then
    { base with flags := .promotion }
  else base

/-- Clearing one castling-rights flag: `castlingRights &= ~flag` on the
4-bit flag set. -/
def clearRight (rights flag : Nat) : Nat := rights &&& (0xf ^^^ flag)

/-- The halfmove-clock update of GameState::executeMove (game_state.cpp
lines 349-353): increment on a quiet non-pawn move, reset otherwise. -/
def halfMovesUpdate (info : UndoInfo) (uneventfulHalfMoves : Nat) : Nat :=
  if info.piece ≠ some Piece.pawn ∧ info.capture = none then
    uneventfulHalfMoves + 1
  else 0

/-- The castling-rights update of GameState::executeMove (game_state.cpp
lines 355-370): any move from e1/h1/a1/e8/h8/a8 or landing on a
rook home square clears the corresponding flags. -/
def castlingRightsUpdate (info : UndoInfo) (castlingRights : Nat) : Nat :=
  let cr := castlingRights
  let cr := if info.start = 4 ∨ info.start = 7 ∨ info.endSq = 7 then
              clearRight cr CastlingRights.whiteKingSide
            else cr
  let cr := if info.start = 4 ∨ info.start = 0 ∨ info.endSq = 0 then
              clearRight cr CastlingRights.whiteQueenSide
            else cr
  let cr := if info.start = 60 ∨ info.start = 63 ∨ info.endSq = 63 then
              clearRight cr CastlingRights.blackKingSide
            else cr
  if info.start = 60 ∨ info.start = 56 ∨ info.endSq = 56 then
    clearRight cr CastlingRights.blackQueenSide
  else cr

/-- The en-passant update of GameState::executeMove (game_state.cpp lines
372-383), evaluated on the still unmutated position (the C++ performs the
board mutation only afterwards): the square behind a pawn that advanced
two ranks, provided the pseudo-move set from that square is nonempty;
otherwise the no-square sentinel. -/
def epUpdate (st : GameState) (info : UndoInfo) : Nat :=
  if info.piece = some Piece.pawn ∧ Square.rank info.start = 1 ∧
     Square.rank info.endSq = 3 ∧
     !(st.getMovesD .pawn st.us (info.start + 8) = 0) then
    info.start + 8
  else if info.piece = some Piece.pawn ∧ Square.rank info.start = 6 ∧
          Square.rank info.endSq = 4 ∧
          !(st.getMovesD .pawn st.us (info.start - 8) = 0) then
    info.start - 8
  else Square.noSquare

/-- The board mutation of GameState::executeMove (game_state.cpp lines
385-411), with `us` the mover: clear a captured piece, handle the
en-passant removal or the rook relocation of a castle, clear the start
square, and set the destination to the moved (or promotion) piece.  The
C++ `set(end, info.piece, us())` with an empty piece writes out of the
board array (undefined behaviour, unreachable for generated moves); the
model leaves the boards unchanged there. -/
def executeMoveBoards (bs : Piece → Color → Nat) (us : Color) (move : Move)
    (info : UndoInfo) : Piece → Color → Nat :=
  let b5 := if info.capture ≠ none then boardsUnset bs info.endSq else bs
  let b6 :=
    match info.flags with
    | .enPassant => boardsUnset b5 (enPassantCapture info.enPassant)
    | .whiteQueenSide => boardsSet (boardsUnset b5 0) 3 .rook us
    | .whiteKingSide => boardsSet (boardsUnset b5 7) 5 .rook us
    | .blackQueenSide => boardsSet (boardsUnset b5 56) 59 .rook us
    | .blackKingSide => boardsSet (boardsUnset b5 63) 61 .rook us
    | _ => b5
  let b7 := boardsUnset b6 info.start
  match move.promotion with
  | some p => boardsSet b7 info.endSq p us
  | none =>
    match info.piece with
    | some p => boardsSet b7 info.endSq p us
    | none => b7

/-- GameState::executeMove (game_state.cpp lines 345-414): push the undo
record, update the halfmove clock and the castling rights, compute the
new en-passant square on the unmutated boards, then mutate the boards and
flip the side to move.  The sequential C++ mutations touch disjoint
fields, so they appear here as one record, field by field, each built by
its own update function on the pre-move state. -/
def GameState.executeMove (st : GameState) (move : Move) : GameState :=
  let info := UndoInfo.make st move
  { pieces := executeMoveBoards st.pieces st.us move info,
    next := st.them,
    castlingRights := castlingRightsUpdate info st.castlingRights,
    enPassantSquare := epUpdate st info,
    uneventfulHalfMoves := halfMovesUpdate info st.uneventfulHalfMoves,
    undoStack := info :: st.undoStack }

/-- The board reversal of GameState::undoMove (game_state.cpp lines
425-452), with `us` the side whose move is being retracted (the C++ has
already restored `next` when these mutations run): clear the destination,
restore a captured piece (outside en passant), undo the en-passant
removal or the castle rook relocation, and restore the moved piece (a
pawn, if the move was a promotion) on the start square. -/
def undoMoveBoards (bs : Piece → Color → Nat) (us : Color)
    (undo : UndoInfo) : Piece → Color → Nat :=
  let them := us.opponent
  let b2 := boardsUnset bs undo.endSq
  let b3 :=
    if undo.flags ≠ MoveFlags.enPassant ∧ undo.capture ≠ none then
      match undo.capture with
      | some p => boardsSet b2 undo.endSq p them
      | none => b2
    else b2
  let b4 :=
    match undo.flags with
    | .enPassant =>
      boardsSet b3 (enPassantCapture undo.enPassant) .pawn them
    | .whiteQueenSide => boardsSet (boardsUnset b3 3) 0 .rook us
    | .whiteKingSide => boardsSet (boardsUnset b3 5) 7 .rook us
    | .blackQueenSide => boardsSet (boardsUnset b3 59) 56 .rook us
    | .blackKingSide => boardsSet (boardsUnset b3 61) 63 .rook us
    | _ => b3
  if undo.flags = MoveFlags.promotion then boardsSet b4 undo.start .pawn us
  else
    match undo.piece with
    | some p => boardsSet b4 undo.start p us
    | none => b4

/-- GameState::undoMove (game_state.cpp lines 416-453): pop the top undo
record, restore the scalar fields, flip the side to move back, and
reverse the board mutations (the side passed to the board reversal is the
restored mover, matching the C++ which restores `next` first).  The C++
top/pop on an empty journal is undefined behaviour and never happens for
journals produced by executeMove; the model returns the state unchanged
there. -/
def GameState.undoMove (st : GameState) : GameState :=
  match st.undoStack with
  | [] => st
  | undo :: rest =>
    { pieces := undoMoveBoards st.pieces st.them undo,
      next := st.them,
      castlingRights := undo.castlingRights,
      enPassantSquare := undo.enPassant,
      uneventfulHalfMoves := undo.uneventfulHalfMoves,
      undoStack := rest }

/-- Modelled from the spec: Square::byName (types.h is not under src/) maps
a file letter a-h and a rank digit 1-8 to the square index
`(file - 'a') + 8 * (rank - '1')`.  For characters outside those ranges the
C++ arithmetic produces an out-of-range index with no validation (evidence
in src/: parseFenString checks `Piece::inRange` after `Piece::byName`
instead of relying on the name functions to fail). -/
def squareByName (fileChar rankChar : Char) : Int :=
  ((fileChar.toNat : Int) - 97) + 8 * ((rankChar.toNat : Int) - 49)

/-- Modelled from the spec: Piece::byName (types.h is not under src/) maps a
FEN piece letter (either case) to its kind and everything else to a
non-inRange sentinel, modelled as none. -/
def pieceByName (c : Char) : Option Piece :=
  if c = 'p' ∨ c = 'P' then some .pawn
  else if c = 'n' ∨ c = 'N' then some .knight
  else if c = 'b' ∨ c = 'B' then some .bishop
  else if c = 'r' ∨ c = 'R' then some .rook
  else if c = 'q' ∨ c = 'Q' then some .queen
  else if c = 'k' ∨ c = 'K' then some .king
  else none

/-- Modelled from the spec: Color::pieceColorFromChar (types.h is not under
src/): uppercase FEN letters are white pieces, lowercase black. -/
def pieceColorFromChar (c : Char) : Color :=
  if c.isUpper then .white else .black

/-- std::string operator[] as used by Move::Move: a defined character for
positions up to and including the length (the index equal to the length
reads the NUL terminator), and undefined behaviour (none) beyond it. -/
def charAt : List Char → Nat → Option Char
  | c :: _, 0 => some c
  | _ :: rest, i + 1 => charAt rest i
  | [], 0 => some (Char.ofNat 0)
  | [], _ + 1 => none

/-- Move::Move(std::string const) (game_state.cpp lines 455-462): build a
move from long-algebraic notation by unvalidated arithmetic on the first
four characters, plus an optional fifth promotion letter.  There is no
length check and no reported error; a none result means the C++ read past
the string's terminator (undefined behaviour).  Square indices outside
0..63 are stored as computed (the Int-valued `squareByName` is the
faithful value; `Int.toNat` only renders it storable in the Nat-valued
square fields and is never reached with a negative value in the theorems
below). -/
def Move.ofAlgebraic (s : List Char) : Option Move := do
  let c0 ← charAt s 0
  let c1 ← charAt s 1
  let c2 ← charAt s 2
  let c3 ← charAt s 3
  let promotion :=
    match s with
    | _ :: _ :: _ :: _ :: c4 :: _ => pieceByName c4
    | _ => none
  some { start := (squareByName c0 c1).toNat,
         endSq := (squareByName c2 c3).toNat,
         promotion := promotion }

/-- An error reported by the position parser (`std::invalid_argument`). -/
inductive ParseError
  | unknownChar (c : Char)
deriving DecidableEq

/-- splitFenFields (game_state.cpp lines 464-472): split on whitespace,
dropping empty fields, as `istringstream >> field` does. -/
def splitFenFields (s : List Char) : List (List Char) :=
  (s.splitOn ' ').filter (fun f => f ≠ [])

/-- The placement-field loop of GameState::parseFenString (game_state.cpp
lines 478-497).  Digits advance the file, a slash moves one rank down, a
known piece letter places a piece, and an unknown character throws.  The
thrown exception leaves the squares already placed on the boards, so the
partially mutated state accompanies the error. -/
def parsePlacement (st : GameState) : List Char → Int → Int →
    GameState × Option ParseError
  | [], _, _ => (st, none)
  | c :: rest, file, rank =>
    if c = ' ' then (st, none)
    else if '0' < c ∧ c ≤ '8' then
      parsePlacement st rest (file + ((c.toNat : Int) - 48)) rank
    else if c = '/' then parsePlacement st rest 0 (rank - 1)
    else
      match pieceByName c with
      | some p =>
        parsePlacement
          (st.set (file + 8 * rank).toNat p (pieceColorFromChar c))
          rest (file + 1) rank
      | none => (st, some (ParseError.unknownChar c))

/-- The decimal reading `std::stoi` performs on a well-formed digit field
(out-of-range or non-numeric input makes the C++ call throw; those inputs
play no role in the claims below). -/
def digitsToNat (s : List Char) : Nat :=
  s.foldl (fun acc c => acc * 10 + (c.toNat - 48)) 0

/-- GameState::parseFenString (game_state.cpp lines 474-521): parse the five
consumed FEN fields in order, mutating the position as it goes.  The
result pairs the position as left by the C++ method with the error it
throws, if any.  C++ indexes the field vector unchecked (undefined
behaviour on a malformed field count); the model reads absent fields as
empty strings, which no theorem below exercises. -/
def GameState.parseFenString (st : GameState) (fen : List Char) :
    GameState × Option ParseError :=
  let fields := splitFenFields fen
  match parsePlacement st (fields.getD 0 []) 0 7 with
  | (st1, some e) => (st1, some e)
  | (st1, none) =>
    let f1 := fields.getD 1 []
    let st2 :=
      { st1 with
        next := if f1.getD 0 (Char.ofNat 0) = 'w' then Color.white
                else Color.black }
    let st3 :=
      { st2 with
        castlingRights :=
          (fields.getD 2 []).foldl
            (fun rights c =>
              if c = 'K' then rights ||| CastlingRights.whiteKingSide
              else if c = 'Q' then rights ||| CastlingRights.whiteQueenSide
              else if c = 'k' then rights ||| CastlingRights.blackKingSide
              else if c = 'q' then rights ||| CastlingRights.blackQueenSide
              else rights)
            st2.castlingRights }
    let f3 := fields.getD 3 []
    let st4 :=
      { st3 with
        enPassantSquare :=
          if f3.getD 0 (Char.ofNat 0) = '-' then Square.noSquare
          else (squareByName (f3.getD 0 (Char.ofNat 0))
                  (f3.getD 1 (Char.ofNat 0))).toNat }
    ({ st4 with uneventfulHalfMoves := digitsToNat (fields.getD 4 []) }, none)

/-- A position with no pieces, no rights and nothing to undo: the state from
which the FEN constructor parses. -/
def GameState.empty : GameState :=
  { pieces := fun _ _ => 0, next := .white, castlingRights := 0,
    enPassantSquare := Square.noSquare, uneventfulHalfMoves := 0,
    undoStack := [] }

/-- The standard chess starting position (the GameState default constructor;
test.cpp relies on it having exactly 20 legal moves). -/
def GameState.startingPosition : GameState :=
  { pieces := fun p c =>
      match p, c with
      | .pawn, .white => 0xff00
      | .knight, .white => 0x42
      | .bishop, .white => 0x24
      | .rook, .white => 0x81
      | .queen, .white => 0x8
      | .king, .white => 0x10
      | .pawn, .black => 0xff000000000000
      | .knight, .black => 0x4200000000000000
      | .bishop, .black => 0x2400000000000000
      | .rook, .black => 0x8100000000000000
      | .queen, .black => 0x800000000000000
      | .king, .black => 0x1000000000000000,
    next := .white, castlingRights := 15, enPassantSquare := Square.noSquare,
    uneventfulHalfMoves := 0, undoStack := [] }

/-- Modelled from the spec: Square::reverseForColor (types.h is not under
src/): the identity for white and the vertical mirror for black, so that
black reads the same piece-square table with flipped rank. -/
def Square.reverseForColor (square : Nat) (c : Color) : Nat :=
  match c with
  | .white => square
  | .black => square ^^^ 56

/-- The index of a piece kind into the piece-square table blocks
(`piece * Square::size` in eval.cpp line 86). -/
def Piece.index : Piece → Nat
  | .pawn => 0
  | .knight => 1
  | .bishop => 2
  | .rook => 3
  | .queen => 4
  | .king => 5

/-- Eval::opening_table (eval.cpp lines 9-70): the six 64-entry
piece-square-table blocks, pawns first, king last. -/
def openingTable : List Int :=
  [0, 0, 0, 0, 0, 0, 0, 0,
   50, 50, 50, 50, 50, 50, 50, 50,
   10, 10, 20, 30, 30, 20, 10, 10,
   5, 5, 10, 25, 25, 10, 5, 5,
   0, 0, 0, 20, 20, 0, 0, 0,
   5, -5, -10, 0, 0, -10, -5, 5,
   5, 10, 10, -20, -20, 10, 10, 5,
   0, 0, 0, 0, 0, 0, 0, 0,
   -50, -40, -30, -30, -30, -30, -40, -50,
   -40, -20, 0, 0, 0, 0, -20, -40,
   -30, 0, 10, 15, 15, 10, 0, -30,
   -30, 5, 15, 20, 20, 15, 5, -30,
   -30, 0, 15, 20, 20, 15, 0, -30,
   -30, 5, 10, 15, 15, 10, 5, -30,
   -40, -20, 0, 5, 5, 0, -20, -40,
   -50, -40, -30, -30, -30, -30, -40, -50,
   -20, -10, -10, -10, -10, -10, -10, -20,
   -10, 0, 0, 0, 0, 0, 0, -10,
   -10, 0, 5, 10, 10, 5, 0, -10,
   -10, 5, 5, 10, 10, 5, 5, -10,
   -10, 0, 10, 10, 10, 10, 0, -10,
   -10, 10, 10, 10, 10, 10, 10, -10,
   -10, 5, 0, 0, 0, 0, 5, -10,
   -20, -10, -10, -10, -10, -10, -10, -20,
   0, 0, 0, 0, 0, 0, 0, 0,
   5, 10, 10, 10, 10, 10, 10, 5,
   -5, 0, 0, 0, 0, 0, 0, -5,
   -5, 0, 0, 0, 0, 0, 0, -5,
   -5, 0, 0, 0, 0, 0, 0, -5,
   -5, 0, 0, 0, 0, 0, 0, -5,
   -5, 0, 0, 0, 0, 0, 0, -5,
   0, 0, 0, 5, 5, 0, 0, 0,
   -20, -10, -10, -5, -5, -10, -10, -20,
   -10, 0, 0, 0, 0, 0, 0, -10,
   -10, 0, 5, 5, 5, 5, 0, -10,
   -5, 0, 5, 5, 5, 5, 0, -5,
   0, 0, 5, 5, 5, 5, 0, -5,
   -10, 5, 5, 5, 5, 5, 0, -10,
   -10, 0, 5, 0, 0, 0, 0, -10,
   -20, -10, -10, -5, -5, -10, -10, -20,
   -30, -40, -40, -50, -50, -40, -40, -30,
   -30, -40, -40, -50, -50, -40, -40, -30,
   -30, -40, -40, -50, -50, -40, -40, -30,
   -30, -40, -40, -50, -50, -40, -40, -30,
   -20, -30, -30, -40, -40, -30, -30, -20,
   -10, -20, -20, -20, -20, -20, -20, -10,
   20, 20, 0, 0, 0, 0, 20, 20,
   20, 30, 10, 0, 0, 10, 30, 20]

/-- Eval::eval (eval.cpp lines 72-95), parameterized by the material weights
`Piece::worth`, which live in types.h (not under src/) and are numerically
unspecified in the spec.  For each non-king kind: add the material
difference times the weight, then the piece-square bonus of each own piece
of that kind at the color-reversed square; finally the 50-move clause. -/
def eval (worth : Piece → Int) (st : GameState) : Int :=
  let result :=
    Piece.nonKing.foldl
      (fun acc piece =>
        let ourPieces := st.forPiece piece st.us
        let opponentPieces := st.forPiece piece st.them
        let diff : Int := (populationCount ourPieces : Int) -
                          (populationCount opponentPieces : Int)
        let acc := acc + diff * worth piece
        (iterate ourPieces).foldl
          (fun acc2 square =>
            acc2 + openingTable.getD
              (Square.reverseForColor square st.us + piece.index * 64) 0)
          acc)
      0
  if 50 ≤ st.uneventfulHalfMoves then 0 else result

/-! Bit-level facts about the board operations. -/

theorem testBit_mask64 (i : Nat) : mask64.testBit i = decide (i < 64) := by
  have h : mask64 = 2 ^ 64 - 1 := by norm_num [mask64]
  rw [h, Nat.testBit_two_pow_sub_one]

theorem single_eq_two_pow (s : Nat) : single s = 2 ^ s := by
  simp [single, Nat.shiftLeft_eq]

theorem testBit_single (s i : Nat) : (single s).testBit i = decide (i = s) := by
  rcases eq_or_ne i s with h | h
  · subst h; simp [single_eq_two_pow]
  · simp [single_eq_two_pow, Nat.testBit_two_pow_of_ne (Ne.symm h), h]

theorem testBit_compl64 (b i : Nat) :
    (compl64 b).testBit i = (decide (i < 64) ^^ b.testBit i) := by
  simp [compl64, Nat.testBit_xor, testBit_mask64]

theorem testBit_ge_64 {b i : Nat} (hb : b < 2 ^ 64) (hi : 64 ≤ i) :
    b.testBit i = false := by
  apply Nat.testBit_lt_two_pow
  exact lt_of_lt_of_le hb (Nat.pow_le_pow_right (by norm_num) hi)

theorem testBit_lt_64 {b i : Nat} (hb : b < 2 ^ 64) (h : b.testBit i = true) :
    i < 64 := by
  by_contra hge
  rw [testBit_ge_64 hb (le_of_not_lt hge)] at h
  exact Bool.false_ne_true h

theorem and_lt_64 {a : Nat} (b : Nat) (ha : a < 2 ^ 64) : a &&& b < 2 ^ 64 :=
  lt_of_le_of_lt Nat.and_le_left ha

theorem mask64_lt : mask64 < 2 ^ 64 := by norm_num [mask64]

theorem compl64_lt {b : Nat} (hb : b < 2 ^ 64) : compl64 b < 2 ^ 64 :=
  Nat.xor_lt_two_pow mask64_lt hb

/-! The BitBoard iterator. -/

/-- The ascending list of indices of the set bits below 64 of a board: the
reference description of what BitBoard iteration should produce. -/
def bitIndices (b : Nat) : List Nat :=
  (List.range 64).filter (fun i => b.testBit i)

theorem populationCount_eq_length (b : Nat) :
    populationCount b = (bitIndices b).length := rfl

theorem ffsAux_spec (b : Nat) :
    ∀ (fuel i : Nat), (∃ j, i ≤ j ∧ j < i + fuel ∧ b.testBit j = true) →
      b.testBit (ffsAux b i fuel) = true ∧ i ≤ ffsAux b i fuel ∧
      ffsAux b i fuel < i + fuel ∧
      ∀ k, i ≤ k → k < ffsAux b i fuel → b.testBit k = false := by
  intro fuel
  induction fuel with
  | zero =>
    rintro i ⟨j, h1, h2, _⟩
    omega
  | succ n ih =>
    rintro i ⟨j, hij, hja, hjb⟩
    by_cases hbit : b.testBit i = true
    · have he : ffsAux b i (n + 1) = i := by simp [ffsAux, hbit]
      rw [he]
      exact ⟨hbit, le_refl i, by omega, fun k hk1 hk2 => absurd hk1 (by omega)⟩
    · have hbitf : b.testBit i = false := by simpa using hbit
      have hne : i ≠ j := fun h => hbit (h ▸ hjb)
      obtain ⟨h1, h2, h3, h4⟩ := ih (i + 1) ⟨j, by omega, by omega, hjb⟩
      have he : ffsAux b i (n + 1) = ffsAux b (i + 1) n := by
        simp [ffsAux, hbitf]
      rw [he]
      refine ⟨h1, by omega, by omega, fun k hk1 hk2 => ?_⟩
      rcases eq_or_lt_of_le hk1 with he2 | hlt
      · exact he2 ▸ hbitf
      · exact h4 k (by omega) hk2

theorem findFirstSet_spec {b : Nat} (hb : b < 2 ^ 64) (h0 : b ≠ 0) :
    b.testBit (findFirstSet b) = true ∧ findFirstSet b < 64 ∧
    ∀ k, k < findFirstSet b → b.testBit k = false := by
  obtain ⟨j, hj⟩ : ∃ j, b.testBit j = true := by
    by_contra hcon
    push_neg at hcon
    apply h0
    apply Nat.eq_of_testBit_eq
    intro i
    rw [Nat.zero_testBit]
    simpa using hcon i
  have hj64 : j < 64 := testBit_lt_64 hb hj
  obtain ⟨h1, h2, h3, h4⟩ := ffsAux_spec b 64 0 ⟨j, by omega, by omega, hj⟩
  exact ⟨h1, by simpa [findFirstSet] using h3,
    fun k hk => h4 k (by omega) hk⟩

theorem testBit_iterStep {b : Nat} (hb : b < 2 ^ 64) (i j : Nat) :
    (iterStep b i).testBit j = (b.testBit j && decide (i < j)) := by
  rw [Bool.eq_iff_iff]
  simp only [Bool.and_eq_true, decide_eq_true_eq]
  unfold iterStep
  by_cases h63 : 63 ≤ i
  · simp only [h63, if_true, Nat.zero_testBit, Bool.false_eq_true, false_iff]
    rintro ⟨hbj, hij⟩
    have : j < 64 := testBit_lt_64 hb hbj
    omega
  · simp only [h63, if_false, Nat.testBit_and, Nat.testBit_shiftLeft,
      testBit_mask64, Bool.and_eq_true, decide_eq_true_eq]
    constructor
    · rintro ⟨hbj, ⟨hle, _⟩, _⟩
      exact ⟨hbj, by omega⟩
    · rintro ⟨hbj, hij⟩
      have hj64 : j < 64 := testBit_lt_64 hb hbj
      exact ⟨hbj, ⟨by omega, by omega⟩, hj64⟩

theorem filter_range_cons (p q : Nat → Bool) :
    ∀ (n i : Nat), i < n → p i = true → (∀ j, j < i → p j = false) →
      (∀ j, q j = (p j && decide (i < j))) →
      (List.range n).filter p = i :: (List.range n).filter q := by
  intro n
  induction n with
  | zero => intro i h; omega
  | succ n ih =>
    intro i hin hpi hlow hq
    rw [List.range_succ, List.filter_append, List.filter_append]
    rcases Nat.lt_or_ge i n with hlt | hge
    · have hpq : p n = q n := by
        rw [hq n, decide_eq_true hlt, Bool.and_true]
      have hf : List.filter p [n] = List.filter q [n] := by
        rw [List.filter_cons, List.filter_cons, hpq]
        simp
      rw [ih i hlt hpi hlow hq, hf, List.cons_append]
    · have hie : i = n := by omega
      subst hie
      have h1 : (List.range i).filter p = [] := by
        rw [List.filter_eq_nil_iff]
        intro a ha
        simp [hlow a (List.mem_range.mp ha)]
      have h2 : (List.range i).filter q = [] := by
        rw [List.filter_eq_nil_iff]
        intro a ha
        have haa : a < i := List.mem_range.mp ha
        simp [hq a, hlow a haa]
      have h3 : q i = false := by
        rw [hq i]
        simp
      rw [h1, h2, List.filter_cons, List.filter_cons, hpi, h3]
      simp

theorem bitIndices_cons {b : Nat} (hb : b < 2 ^ 64) (h0 : b ≠ 0) :
    bitIndices b =
      findFirstSet b :: bitIndices (iterStep b (findFirstSet b)) := by
  obtain ⟨h1, h2, h3⟩ := findFirstSet_spec hb h0
  exact filter_range_cons _ _ 64 (findFirstSet b) h2 h1 (fun j hj => h3 j hj)
    (fun j => testBit_iterStep hb _ j)

theorem iterStep_lt {b : Nat} (hb : b < 2 ^ 64) (i : Nat) :
    iterStep b i < 2 ^ 64 := by
  unfold iterStep
  by_cases h : 63 ≤ i
  · simp only [h, if_true]
    positivity
  · simp only [h, if_false]
    exact and_lt_64 _ hb

theorem iterGo_eq_bitIndices :
    ∀ (fuel b : Nat), b < 2 ^ 64 → (bitIndices b).length ≤ fuel →
      iterGo fuel b = bitIndices b := by
  intro fuel
  induction fuel with
  | zero =>
    intro b hb hlen
    have h : bitIndices b = [] := List.length_eq_zero.mp (Nat.le_zero.mp hlen)
    simp [iterGo, h]
  | succ n ih =>
    intro b hb hlen
    by_cases h0 : b = 0
    · subst h0
      simp [iterGo, bitIndices]
    · have hcons := bitIndices_cons hb h0
      have hlen2 : (bitIndices (iterStep b (findFirstSet b))).length ≤ n := by
        have h := congrArg List.length hcons
        simp only [List.length_cons] at h
        omega
      simp only [iterGo, h0, if_false]
      rw [ih _ (iterStep_lt hb _) hlen2, ← hcons]

theorem iterate_eq_bitIndices {b : Nat} (hb : b < 2 ^ 64) :
    iterate b = bitIndices b :=
  iterGo_eq_bitIndices 64 b hb
    (le_trans (List.length_filter_le _ _) (by simp))

theorem mem_iterate {b : Nat} (hb : b < 2 ^ 64) (i : Nat) :
    i ∈ iterate b ↔ b.testBit i = true := by
  rw [iterate_eq_bitIndices hb]
  simp only [bitIndices, List.mem_filter, List.mem_range]
  constructor
  · rintro ⟨_, h⟩
    exact h
  · intro h
    exact ⟨testBit_lt_64 hb h, h⟩

theorem iterate_sorted {b : Nat} (hb : b < 2 ^ 64) :
    (iterate b).Pairwise (· < ·) := by
  rw [iterate_eq_bitIndices hb]
  exact List.Pairwise.sublist (List.filter_sublist _) (List.sorted_lt_range 64)

theorem iterate_length {b : Nat} (hb : b < 2 ^ 64) :
    (iterate b).length = populationCount b := by
  rw [iterate_eq_bitIndices hb, populationCount_eq_length]

/-- C8: for every BitBoard value S (any 64-bit word), iterating S from
begin() to end() yields exactly popcount(S) squares, each of them a set
square of S and each yielded exactly once (the indices are strictly
ascending, hence pairwise distinct; the shift-by-64 case of the increment
is the saturating branch of iterStep); concretely, iterating the board
0xc0000000000e1805 yields [0, 2, 11, 12, 17, 18, 19, 62, 63]. -/
theorem bitboard_iteration_correct :
    (∀ S : Nat, S < 2 ^ 64 →
      (iterate S).length = populationCount S ∧
      (∀ i : Nat, i ∈ iterate S ↔ S.testBit i = true) ∧
      (iterate S).Pairwise (· < ·)) ∧
    iterate 0xc0000000000e1805 = [0, 2, 11, 12, 17, 18, 19, 62, 63] := by
  constructor
  · intro S hS
    exact ⟨iterate_length hS, mem_iterate hS, iterate_sorted hS⟩
  · decide

/-- Witness for C8 at the concrete board of the claim. -/
theorem bitboard_iteration_correct_witness :
    (iterate 0xc0000000000e1805).length = populationCount 0xc0000000000e1805 ∧
    (11 ∈ iterate 0xc0000000000e1805 ↔
      (0xc0000000000e1805 : Nat).testBit 11 = true) ∧
    (iterate 0xc0000000000e1805).Pairwise (· < ·) := by
  obtain ⟨h1, h2, h3⟩ :=
    bitboard_iteration_correct.1 0xc0000000000e1805 (by norm_num)
  exact ⟨h1, h2 11, h3⟩

/-! Concrete positions used to settle the claims. -/

/-- The position of FEN "6bk/8/8/3pP3/8/8/K7/8 w - d6 0 1": white king a2,
white pawn e5; black bishop g8, black king h8, black pawn d5.  Black has
just played d7d5 (see epDiscoveryBefore), so the en-passant square d6 is
set. -/
def epDiscoveryPosition : GameState :=
  { pieces := fun p c =>
      match p, c with
      | .pawn, .white => single 36
      | .king, .white => single 8
      | .pawn, .black => single 35
      | .bishop, .black => single 62
      | .king, .black => single 63
      | _, _ => 0,
    next := .white, castlingRights := 0, enPassantSquare := 43,
    uneventfulHalfMoves := 0, undoStack := [] }

/-- The same position one ply earlier, with the black pawn still on d7 and
black to move. -/
def epDiscoveryBefore : GameState :=
  { pieces := fun p c =>
      match p, c with
      | .pawn, .white => single 36
      | .king, .white => single 8
      | .pawn, .black => single 51
      | .bishop, .black => single 62
      | .king, .black => single 63
      | _, _ => 0,
    next := .black, castlingRights := 0,
    enPassantSquare := Square.noSquare,
    uneventfulHalfMoves := 0, undoStack := [] }

/-- C1 (code bug): the generator is not safe.  In the position reached by
the double push d7d5 (which genuinely sets the en-passant square d6
per the first conjunct), generateLegalMoves emits the en-passant capture
e5d6, yet after executing it the white king on a2 is attacked by the
bishop on g8 through the two vacated squares d5 and e5 - the mover is
left in check, contradicting the claimed invariant. -/
theorem generator_emits_move_into_check :
    (epDiscoveryBefore.executeMove
        { start := 51, endSq := 35 }).enPassantSquare = 43 ∧
    ({ start := 36, endSq := 43 } : Move) ∈
      epDiscoveryPosition.generateLegalMoves ∧
    (epDiscoveryPosition.executeMove
        { start := 36, endSq := 43 }).inCheckFor .white = true := by
  refine ⟨by decide, by decide, by decide⟩

/-- The position of FEN "7k/8/8/K1pP4/8/8/8/8 w - c6 0 1": white king a5,
white pawn d5, black pawn c5, black king h8, en-passant square c6.  No
enemy rook or queen exists at all, so capturing en passant is legal. -/
def epOnKingRankPosition : GameState :=
  { pieces := fun p c =>
      match p, c with
      | .pawn, .white => single 35
      | .king, .white => single 32
      | .pawn, .black => single 34
      | .king, .black => single 63
      | _, _ => 0,
    next := .white, castlingRights := 0, enPassantSquare := 42,
    uneventfulHalfMoves := 0, undoStack := [] }

/-- C4 (code bug): in the king-on-rank en-passant branch the capture is
never emitted, even when no enemy rook or queen exists.  The position
satisfies the claim's preconditions (the white king shares rank 4 with the
captured pawn c5, and exactly one pawn, d5, is eligible), black has no
rook and no queen, yet the move d5c6 is missing from the generated list:
the branch intersects the single en-passant destination square with a
rook ray from the king, which lies entirely on the king's rank and file
and can never contain the en-passant square, and it passes the king
square (not its file) to rightOf/leftOf. -/
theorem epOnKingRank_capture_suppressed :
    Square.rank (findFirstSet (epOnKingRankPosition.forPiece .king .white)) =
      Square.rank (enPassantCapture epOnKingRankPosition.enPassantSquare) ∧
    populationCount
      (epOnKingRankPosition.getMovesD .pawn .black
        epOnKingRankPosition.enPassantSquare &&&
       epOnKingRankPosition.forPiece .pawn .white) = 1 ∧
    epOnKingRankPosition.forPiece .rook .black = 0 ∧
    epOnKingRankPosition.forPiece .queen .black = 0 ∧
    ({ start := 35, endSq := 42 } : Move) ∉
      epOnKingRankPosition.generateLegalMoves := by
  refine ⟨by decide, by decide, by decide, by decide, by decide⟩

/-- The set of squares strictly below a rank, as the spec words it. -/
def strictlyBelow (rank : Nat) : Nat :=
  (List.range 64).foldl
    (fun acc s => if Square.rank s < rank then setSquare acc s else acc) 0

/-- The set of squares strictly left of a file, as the spec words it. -/
def strictlyLeftOf (file : Nat) : Nat :=
  (List.range 64).foldl
    (fun acc s => if Square.file s < file then setSquare acc s else acc) 0

/-- C5 (code bug): below(r) is not the set of squares strictly below rank r
(the shift amount is (r-1)*8 where 64-8r would be needed): at rank 5 the
code yields ranks 0-3 (0xffffffff), missing rank 4, while the claimed set
is ranks 0-4 (0xffffffffff); consequently for a king on e4 the computed
lower ray differs from rook-reachability intersected with the squares
strictly below rank 3.  leftOf(0) is the full board instead of the empty
set.  (At rank 0 the C++ shift amount is even negative: undefined
behaviour.) -/
theorem below_leftOf_wrong :
    below 5 = 0xffffffff ∧
    strictlyBelow 5 = 0xffffffffff ∧
    below 5 ≠ strictlyBelow 5 ∧
    leftOf 0 = mask64 ∧
    strictlyLeftOf 0 = 0 ∧
    rookLookup 28 0 &&& below 3 ≠ rookLookup 28 0 &&& strictlyBelow 3 := by
  refine ⟨by decide, by decide, by decide, by decide, by decide, by decide⟩

/-- The position of FEN "k7/8/8/8/8/8/P7/K7 w - - 0 1": white king a1 and
pawn a2, black king a8, no black pawn anywhere. -/
def doublePushPosition : GameState :=
  { pieces := fun p c =>
      match p, c with
      | .pawn, .white => single 8
      | .king, .white => single 0
      | .king, .black => single 56
      | _, _ => 0,
    next := .white, castlingRights := 0,
    enPassantSquare := Square.noSquare,
    uneventfulHalfMoves := 0, undoStack := [] }

/-- C3 counterexample: after the double push a2a4 in a position with no
black pawn at all (so no enemy pawn is positioned to capture en passant),
executeMove sets en_passant_square to a3 (16) instead of clearing it:
the emptiness check `getMoves(pawn, us, a3)` also counts the forward
push onto the still-empty a4, so it never fails for a double push. -/
theorem enPassant_set_without_capturer :
    doublePushPosition.forPiece .pawn .black = 0 ∧
    (doublePushPosition.executeMove
        { start := 8, endSq := 24 }).enPassantSquare = 16 ∧
    (doublePushPosition.executeMove
        { start := 8, endSq := 24 }).enPassantSquare ≠ Square.noSquare := by
  refine ⟨by decide, by decide, by decide⟩

/-- C10 (code bug): the pawn single-push shift amount `square + offset`
leaves [0, 63] exactly in the cases the claim asserts it stays inside:
for white on a8 (square 56, rank 7) it is 64 and for black on a1 (square
0, rank 0) it is -8, so the C++ `1UL << (square + offset)` is undefined
behaviour there - and king-move safety checks do evaluate getAttacks, and
through it this pawn case, on destination squares of ranks 7 and 0. -/
theorem pawnPushShift_out_of_range :
    Square.rank 56 = 7 ∧
    pawnPushShift .white 56 = 64 ∧
    ¬(0 ≤ pawnPushShift .white 56 ∧ pawnPushShift .white 56 < 64) ∧
    Square.rank 0 = 0 ∧
    pawnPushShift .black 0 = -8 ∧
    ¬(0 ≤ pawnPushShift .black 0 ∧ pawnPushShift .black 0 < 64) := by
  refine ⟨by decide, by decide, by decide, by decide, by decide, by decide⟩

/-- The malformed FEN input of claim C6: the first placement character is a
valid piece, the second is unknown. -/
def badFen : List Char := ("PX6/8/8/8/8/8/8/8 w - - 0 1").toList

/-- C6 counterexample: parsing the malformed FEN reports an error
synchronously, but the Position is partially mutated: the white pawn
placed on a8 before the unknown character `X` remains on the board, so
the piece boards differ from their values before the parse. -/
theorem parseFen_partially_mutates :
    ((GameState.empty.parseFenString badFen).2).isSome = true ∧
    (GameState.empty.parseFenString badFen).1.pieces .pawn .white =
      single 56 ∧
    GameState.empty.pieces .pawn .white = 0 ∧
    (GameState.empty.parseFenString badFen).1.pieces .pawn .white ≠
      GameState.empty.pieces .pawn .white := by
  refine ⟨by decide, by decide, by decide, by decide⟩

/-- C6 amended: the error is reported synchronously at parse time, but the
Position keeps every piece placed before the offending character (here
the white pawn on a8), whatever state the parse started from: the parse
mutates as it scans and the throw does not roll back. -/
theorem parseFen_error_keeps_partial_state (st : GameState) :
    (st.parseFenString badFen).2 = some (ParseError.unknownChar 'X') ∧
    (st.parseFenString badFen).1 = st.set 56 .pawn .white := by
  constructor <;> rfl

/-- Witness for the amended C6 theorem at the empty position. -/
theorem parseFen_error_keeps_partial_state_witness :
    (GameState.empty.parseFenString badFen).2 =
      some (ParseError.unknownChar 'X') ∧
    (GameState.empty.parseFenString badFen).1 =
      GameState.empty.set 56 .pawn .white :=
  parseFen_error_keeps_partial_state GameState.empty

/-- C7 counterexample: constructing a Move from "zzzz" - a four-character
string whose square letters all lie outside a-h / 1-8 - reports no error
at all: the constructor stores the unvalidated byName arithmetic, here
the out-of-range square index 609, and likewise a length-2 string is an
out-of-bounds read (undefined behaviour), not a reported error. -/
theorem moveOfAlgebraic_accepts_invalid_input :
    (Move.ofAlgebraic ("zzzz").toList).isSome = true ∧
    squareByName 'z' 'z' = 609 ∧
    ¬(squareByName 'z' 'z' < 64) ∧
    Move.ofAlgebraic ("zzzz").toList =
      some { start := 609, endSq := 609, promotion := none } ∧
    Move.ofAlgebraic ("a1").toList = none := by
  refine ⟨by decide, by decide, by decide, by decide, by decide⟩

/-- C7 amended: Move construction never reports an error for an input of
length at least four - it performs no validation, storing whatever the
character arithmetic produces (out-of-range squares for bad letters, a
sentinel promotion for an unknown promotion letter); shorter inputs read
past the string instead of failing. -/
theorem moveOfAlgebraic_never_reports_error :
    ∀ (s : List Char), 4 ≤ s.length → (Move.ofAlgebraic s).isSome = true := by
  intro s h
  match s with
  | [] => simp at h
  | [_] => simp at h
  | [_, _] => simp at h
  | [_, _, _] => simp at h
  | [c0, c1, c2, c3] => rfl
  | c0 :: c1 :: c2 :: c3 :: c4 :: rest => rfl

/-- Witness for the amended C7 theorem on a well-formed move string. -/
theorem moveOfAlgebraic_never_reports_error_witness :
    (Move.ofAlgebraic ("a1a3").toList).isSome = true :=
  moveOfAlgebraic_never_reports_error (("a1a3").toList) (by decide)

/-! Field descriptions of the records built by executeMove. -/

theorem executeMove_next (st : GameState) (m : Move) :
    (st.executeMove m).next = st.them := rfl

theorem executeMove_castlingRights (st : GameState) (m : Move) :
    (st.executeMove m).castlingRights =
      castlingRightsUpdate (UndoInfo.make st m) st.castlingRights := rfl

theorem executeMove_enPassantSquare (st : GameState) (m : Move) :
    (st.executeMove m).enPassantSquare =
      epUpdate st (UndoInfo.make st m) := rfl

theorem executeMove_uneventfulHalfMoves (st : GameState) (m : Move) :
    (st.executeMove m).uneventfulHalfMoves =
      halfMovesUpdate (UndoInfo.make st m) st.uneventfulHalfMoves := rfl

theorem executeMove_undoStack (st : GameState) (m : Move) :
    (st.executeMove m).undoStack = UndoInfo.make st m :: st.undoStack := rfl

theorem executeMove_pieces (st : GameState) (m : Move) :
    (st.executeMove m).pieces =
      executeMoveBoards st.pieces st.us m (UndoInfo.make st m) := rfl

theorem UndoInfo.make_piece (st : GameState) (m : Move) :
    (UndoInfo.make st m).piece = st.getPiece m.start := by
  unfold UndoInfo.make
  dsimp only
  repeat' split
  all_goals rfl

theorem UndoInfo.make_start (st : GameState) (m : Move) :
    (UndoInfo.make st m).start = m.start := by
  unfold UndoInfo.make
  dsimp only
  repeat' split
  all_goals rfl

theorem UndoInfo.make_endSq (st : GameState) (m : Move) :
    (UndoInfo.make st m).endSq = m.endSq := by
  unfold UndoInfo.make
  dsimp only
  repeat' split
  all_goals rfl

theorem UndoInfo.make_enPassant (st : GameState) (m : Move) :
    (UndoInfo.make st m).enPassant = st.enPassantSquare := by
  unfold UndoInfo.make
  dsimp only
  repeat' split
  all_goals rfl

theorem UndoInfo.make_castlingRights (st : GameState) (m : Move) :
    (UndoInfo.make st m).castlingRights = st.castlingRights := by
  unfold UndoInfo.make
  dsimp only
  repeat' split
  all_goals rfl

theorem UndoInfo.make_uneventfulHalfMoves (st : GameState) (m : Move) :
    (UndoInfo.make st m).uneventfulHalfMoves = st.uneventfulHalfMoves := by
  unfold UndoInfo.make
  dsimp only
  repeat' split
  all_goals rfl

theorem ne_zero_of_testBit {x i : Nat} (h : x.testBit i = true) : x ≠ 0 := by
  intro h0
  rw [h0, Nat.zero_testBit] at h
  exact Bool.false_ne_true h

theorem testBit_or_left {a : Nat} (b : Nat) {i : Nat}
    (h : a.testBit i = true) : (a ||| b).testBit i = true := by
  rw [Nat.testBit_or, h, Bool.true_or]

theorem testBit_or_right (a : Nat) {b i : Nat}
    (h : b.testBit i = true) : (a ||| b).testBit i = true := by
  rw [Nat.testBit_or, h, Bool.or_true]

theorem testBit_and_intro {a b i : Nat} (h1 : a.testBit i = true)
    (h2 : b.testBit i = true) : (a &&& b).testBit i = true := by
  rw [Nat.testBit_and, h1, h2, Bool.and_true]

theorem testBit_compl64_of {b i : Nat} (hlt : i < 64)
    (h : b.testBit i = false) : (compl64 b).testBit i = true := by
  rw [testBit_compl64, h, decide_eq_true hlt]
  rfl

theorem testBit_or_false {a b i : Nat} (h : (a ||| b).testBit i = false) :
    a.testBit i = false ∧ b.testBit i = false := by
  rw [Nat.testBit_or] at h
  exact Bool.or_eq_false_iff.mp h

/-- Occupancy covers each color's pieces. -/
theorem forColor_testBit_of_occupancy {st : GameState} {i : Nat}
    (h : st.occupancy.testBit i = false) (c : Color) :
    (st.forColor c).testBit i = false := by
  obtain ⟨hw, hb⟩ := testBit_or_false h
  cases c
  · exact hw
  · exact hb

/-- The single-push bit of the pawn pseudo-move set: if the push target of
a white pawn placed on the behind-square is a free square, its getMoves
set is nonempty (the forward push itself contributes). -/
theorem getMoves_pawn_push_nonempty_white (st : GameState) (behind : Nat)
    (h64 : behind + 8 < 64)
    (hfree : st.occupancy.testBit (behind + 8) = false) :
    st.getMovesD .pawn .white behind ≠ 0 := by
  apply ne_zero_of_testBit (i := behind + 8)
  have hshift : shiftOne ((behind : Int) + 8) = 2 ^ (behind + 8) := by
    unfold shiftOne
    rw [if_pos ⟨by positivity, by exact_mod_cast h64⟩]
    have ht : ((behind : Int) + 8).toNat = behind + 8 := by omega
    rw [ht, Nat.shiftLeft_eq, one_mul]
  have hm1 : (shiftOne ((behind : Int) + 8) &&&
      compl64 st.occupancy).testBit (behind + 8) = true := by
    exact testBit_and_intro (hshift ▸ Nat.testBit_two_pow_self)
      (testBit_compl64_of h64 hfree)
  unfold GameState.getMovesD GameState.getMoves
  simp only
  apply testBit_and_intro
  · apply testBit_or_left
    split
    · exact testBit_or_left _ hm1
    · exact hm1
  · exact testBit_compl64_of h64
      (forColor_testBit_of_occupancy hfree .white)

/-- The black counterpart: the downward push of a black pawn placed on the
behind-square onto a free target square makes its getMoves set nonempty. -/
theorem getMoves_pawn_push_nonempty_black (st : GameState) (behind : Nat)
    (h8 : 8 ≤ behind) (h64 : behind < 64)
    (hfree : st.occupancy.testBit (behind - 8) = false) :
    st.getMovesD .pawn .black behind ≠ 0 := by
  apply ne_zero_of_testBit (i := behind - 8)
  have hshift : shiftOne ((behind : Int) + -8) = 2 ^ (behind - 8) := by
    unfold shiftOne
    rw [if_pos ⟨by omega, by omega⟩]
    have ht : ((behind : Int) + -8).toNat = behind - 8 := by omega
    rw [ht, Nat.shiftLeft_eq, one_mul]
  have hm1 : (shiftOne ((behind : Int) + -8) &&&
      compl64 st.occupancy).testBit (behind - 8) = true := by
    exact testBit_and_intro (hshift ▸ Nat.testBit_two_pow_self)
      (testBit_compl64_of (by omega) hfree)
  unfold GameState.getMovesD GameState.getMoves
  simp only
  apply testBit_and_intro
  · apply testBit_or_left
    split
    · exact testBit_or_left _ hm1
    · exact hm1
  · exact testBit_compl64_of (by omega)
      (forColor_testBit_of_occupancy hfree .black)

/-- C3 amended: after a pawn double push from its home rank onto a free
destination square, executeMove always sets en_passant_square to the
square behind the pawn - whether or not any enemy pawn is positioned to
capture - because the emptiness check `getMoves(pawn, us, behind)` runs
before the board mutation and therefore also counts the forward push onto
the still-empty destination; after a move of any other piece the square
is cleared to no_square. -/
theorem enPassant_after_double_push :
    (∀ (st : GameState) (start : Nat), st.next = Color.white →
      st.getPiece start = some Piece.pawn → Square.rank start = 1 →
      st.occupancy.testBit (start + 16) = false →
      (st.executeMove { start := start, endSq := start + 16 }).enPassantSquare
        = start + 8) ∧
    (∀ (st : GameState) (start : Nat), st.next = Color.black →
      st.getPiece start = some Piece.pawn → Square.rank start = 6 →
      st.occupancy.testBit (start - 16) = false →
      (st.executeMove { start := start, endSq := start - 16 }).enPassantSquare
        = start - 8) ∧
    (∀ (st : GameState) (m : Move), st.getPiece m.start ≠ some Piece.pawn →
      (st.executeMove m).enPassantSquare = Square.noSquare) := by
  refine ⟨?_, ?_, ?_⟩
  · intro st start hnext hpiece hrank hfree
    rw [executeMove_enPassantSquare]
    unfold epUpdate
    rw [if_pos]
    · rw [UndoInfo.make_start]
    · refine ⟨?_, ?_, ?_, ?_⟩
      · rw [UndoInfo.make_piece]
        exact hpiece
      · rw [UndoInfo.make_start]
        exact hrank
      · rw [UndoInfo.make_endSq]
        show (start + 16) / 8 = 3
        unfold Square.rank at hrank
        omega
      · rw [UndoInfo.make_start]
        have hne := getMoves_pawn_push_nonempty_white st (start + 8)
          (by unfold Square.rank at hrank; omega)
          (by
            have he : start + 8 + 8 = start + 16 := by omega
            rw [he]
            exact hfree)
        rw [GameState.us, hnext]
        simpa using hne
  · intro st start hnext hpiece hrank hfree
    rw [executeMove_enPassantSquare]
    unfold epUpdate
    rw [if_neg, if_pos]
    · rw [UndoInfo.make_start]
    · refine ⟨?_, ?_, ?_, ?_⟩
      · rw [UndoInfo.make_piece]
        exact hpiece
      · rw [UndoInfo.make_start]
        exact hrank
      · rw [UndoInfo.make_endSq]
        show (start - 16) / 8 = 4
        unfold Square.rank at hrank
        omega
      · rw [UndoInfo.make_start]
        have hne := getMoves_pawn_push_nonempty_black st (start - 8)
          (by unfold Square.rank at hrank; omega)
          (by unfold Square.rank at hrank; omega)
          (by
            have he : start - 8 - 8 = start - 16 := by omega
            rw [he]
            exact hfree)
        rw [GameState.us, hnext]
        simpa using hne
    · rw [UndoInfo.make_start]
      rintro ⟨_, h1, _⟩
      dsimp only at h1
      unfold Square.rank at hrank h1
      omega
  · intro st m hpiece
    rw [executeMove_enPassantSquare]
    unfold epUpdate
    rw [if_neg, if_neg]
    · rintro ⟨hp, _⟩
      rw [UndoInfo.make_piece] at hp
      exact hpiece hp
    · rintro ⟨hp, _⟩
      rw [UndoInfo.make_piece] at hp
      exact hpiece hp

/-- Witness for the amended C3 theorem: the double push a2a4 in
doublePushPosition (which has no black pawn at all) sets the en-passant
square to a3. -/
theorem enPassant_after_double_push_witness :
    (doublePushPosition.executeMove
        { start := 8, endSq := 8 + 16 }).enPassantSquare = 8 + 8 :=
  enPassant_after_double_push.1 doublePushPosition 8 rfl (by decide)
    (by decide) (by decide)

/-! The static evaluator against the claim's formula. -/

/-- The claimed material term of one piece kind: (own popcount minus
opponent popcount) times that kind's material weight. -/
def materialTerm (worth : Piece → Int) (st : GameState) (p : Piece) : Int :=
  ((populationCount (st.forPiece p st.us) : Int) -
   (populationCount (st.forPiece p st.them) : Int)) * worth p

/-- The claimed piece-square-table bonus of one piece kind: the table entry
at reverse_for_color of the square, summed over the side-to-move's pieces
of that kind. -/
def pstBonus (st : GameState) (p : Piece) : Int :=
  ((bitIndices (st.forPiece p st.us)).map
    (fun square =>
      openingTable.getD
        (Square.reverseForColor square st.us + p.index * 64) 0)).sum

/-- The evaluation formula as claim C9 words it: 0 under the 50-move rule,
otherwise the sum over the five non-king kinds of material term plus
piece-square bonus, from the side-to-move's perspective. -/
def evalSpec (worth : Piece → Int) (st : GameState) : Int :=
  if 50 ≤ st.uneventfulHalfMoves then 0
  else (Piece.nonKing.map
    (fun p => materialTerm worth st p + pstBonus st p)).sum

theorem foldl_add_map (f : Nat → Int) :
    ∀ (L : List Nat) (acc : Int),
      L.foldl (fun a s => a + f s) acc = acc + (L.map f).sum := by
  intro L
  induction L with
  | nil => intro acc; simp
  | cons x xs ih =>
    intro acc
    simp only [List.foldl_cons, List.map_cons, List.sum_cons, ih]
    ring

/-- C9: eval returns 0 whenever uneventful_half_moves is at least 50, and
otherwise the claimed sum - material difference times weight over the
five non-king kinds, plus the piece-square-table bonus of each of the
side-to-move's (non-king) pieces looked up at reverse_for_color of its
square. -/
theorem eval_matches_formula (worth : Piece → Int) (st : GameState)
    (hb : ∀ p c, st.pieces p c < 2 ^ 64) :
    eval worth st = evalSpec worth st := by
  unfold eval evalSpec
  by_cases h50 : 50 ≤ st.uneventfulHalfMoves
  · rw [if_pos h50, if_pos h50]
  · rw [if_neg h50, if_neg h50]
    have hi : ∀ p : Piece, iterate (st.forPiece p st.us) =
        bitIndices (st.forPiece p st.us) := by
      intro p
      exact iterate_eq_bitIndices (hb p st.us)
    simp only [Piece.nonKing, List.foldl_cons, List.foldl_nil, List.map_cons,
      List.map_nil, List.sum_cons, List.sum_nil, hi, foldl_add_map,
      materialTerm, pstBonus]
    ring

/-- Witness for C9 at the starting position with uniform weights. -/
theorem eval_matches_formula_witness :
    eval (fun _ => 100) GameState.startingPosition =
      evalSpec (fun _ => 100) GameState.startingPosition :=
  eval_matches_formula (fun _ => 100) GameState.startingPosition
    (by intro p c; cases p <;> cases c <;> decide)

/-! Pointwise descriptions of the board mutations. -/

theorem boardsSet_testBit (bs : Piece → Color → Nat) (sq : Nat) (p : Piece)
    (c : Color) (q : Piece) (d : Color) (j : Nat) :
    ((boardsSet bs sq p c) q d).testBit j =
      ((bs q d).testBit j || (decide (j = sq) && decide (q = p ∧ d = c))) := by
  unfold boardsSet
  split
  · rename_i h
    rw [setSquare, Nat.testBit_or, testBit_single, decide_eq_true h,
      Bool.and_true]
  · rename_i h
    rw [decide_eq_false h, Bool.and_false, Bool.or_false]

theorem boardsUnset_testBit (bs : Piece → Color → Nat) (sq : Nat) (q : Piece)
    (d : Color) (j : Nat) (hb : bs q d < 2 ^ 64) :
    ((boardsUnset bs sq) q d).testBit j =
      ((bs q d).testBit j && !decide (j = sq)) := by
  unfold boardsUnset unsetSquare
  rw [Nat.testBit_and, testBit_compl64, testBit_single]
  by_cases hj : j < 64
  · simp [hj]
  · rw [testBit_ge_64 hb (by omega)]
    simp

theorem boardsUnset_lt {bs : Piece → Color → Nat}
    (hb : ∀ q d, bs q d < 2 ^ 64) (sq : Nat) :
    ∀ q d, (boardsUnset bs sq) q d < 2 ^ 64 :=
  fun q d => and_lt_64 _ (hb q d)

theorem boardsSet_lt {bs : Piece → Color → Nat}
    (hb : ∀ q d, bs q d < 2 ^ 64) {sq : Nat} (h64 : sq < 64)
    (p : Piece) (c : Color) :
    ∀ q d, (boardsSet bs sq p c) q d < 2 ^ 64 := by
  intro q d
  unfold boardsSet
  split
  · apply Nat.or_lt_two_pow (hb q d)
    rw [single_eq_two_pow]
    exact Nat.pow_lt_pow_right (by norm_num) h64
  · exact hb q d

/-- The core of the make/unmake board round trip for a plain (possibly
capturing, possibly promoting) move: executing clears the captured piece
at e, clears s and sets pp (the moved or promotion piece) at e; undoing
clears e, restores the capture and sets P (the original content of s)
back on s.  Under the disjointness and content hypotheses these cancel
square by square. -/
theorem boards_roundtrip_plain (bs : Piece → Color → Nat) (us : Color)
    (s e : Nat) (P pp : Piece) (cap : Option Piece)
    (hb : ∀ q d, bs q d < 2 ^ 64) (he64 : e < 64) (hne : s ≠ e)
    (hdisj : ∀ q d q2 d2 j, ¬(q = q2 ∧ d = d2) →
      (bs q d).testBit j = true → (bs q2 d2).testBit j = false)
    (hstartbit : (bs P us).testBit s = true)
    (hcap : match cap with
      | some C => (bs C us.opponent).testBit e = true ∧
          ∀ q, (bs q us).testBit e = false
      | none => ∀ q d, (bs q d).testBit e = false) :
    boardsSet
      (let b8 := boardsSet
        (boardsUnset (if cap ≠ none then boardsUnset bs e else bs) s) e pp us
       let c2 := boardsUnset b8 e
       if cap ≠ none then
         match cap with
         | some C => boardsSet c2 e C us.opponent
         | none => c2
       else c2) s P us = bs := by
  have hstartonly : ∀ q d, ¬(q = P ∧ d = us) → (bs q d).testBit s = false := by
    intro q d hqd
    cases hx : (bs q d).testBit s
    · rfl
    · have := hdisj q d P us s hqd hx
      rw [hstartbit] at this
      exact absurd this (by simp)
  rcases cap with _ | C
  · simp only [ne_eq, not_true_eq_false, if_false, reduceCtorEq]
    funext q d
    apply Nat.eq_of_testBit_eq
    intro j
    have h7 : ∀ q d, (boardsUnset bs s) q d < 2 ^ 64 := boardsUnset_lt hb s
    have h8 : ∀ q d, (boardsSet (boardsUnset bs s) e pp us) q d < 2 ^ 64 :=
      boardsSet_lt h7 he64 pp us
    rw [boardsSet_testBit, boardsUnset_testBit _ _ _ _ _ (h8 q d),
      boardsSet_testBit, boardsUnset_testBit _ _ _ _ _ (hb q d)]
    by_cases hjs : j = s
    · subst hjs
      rw [decide_eq_true (rfl : j = j)]
      rw [decide_eq_false hne]
      by_cases hqd : q = P ∧ d = us
      · obtain ⟨hq, hd⟩ := hqd
        subst hq
        subst hd
        rw [hstartbit]
        simp
      · rw [hstartonly q d hqd, decide_eq_false hqd]
        simp
    · by_cases hje : j = e
      · subst hje
        rw [decide_eq_false hjs, decide_eq_true (rfl : j = j)]
        rw [hcap q d]
        simp
      · rw [decide_eq_false hjs, decide_eq_false hje]
        simp
  · simp only [ne_eq, reduceCtorEq, not_false_eq_true, if_true]
    funext q d
    apply Nat.eq_of_testBit_eq
    intro j
    have h5 : ∀ q d, (boardsUnset bs e) q d < 2 ^ 64 := boardsUnset_lt hb e
    have h7 : ∀ q d, (boardsUnset (boardsUnset bs e) s) q d < 2 ^ 64 :=
      boardsUnset_lt h5 s
    have h8 : ∀ q d,
        (boardsSet (boardsUnset (boardsUnset bs e) s) e pp us) q d < 2 ^ 64 :=
      boardsSet_lt h7 he64 pp us
    rw [boardsSet_testBit, boardsSet_testBit,
      boardsUnset_testBit _ _ _ _ _ (h8 q d), boardsSet_testBit,
      boardsUnset_testBit _ _ _ _ _ (h5 q d),
      boardsUnset_testBit _ _ _ _ _ (hb q d)]
    obtain ⟨hcapbit, hcapus⟩ := hcap
    by_cases hjs : j = s
    · subst hjs
      rw [decide_eq_true (rfl : j = j), decide_eq_false hne]
      by_cases hqd : q = P ∧ d = us
      · obtain ⟨hq, hd⟩ := hqd
        subst hq
        subst hd
        rw [hstartbit]
        simp
      · rw [hstartonly q d hqd, decide_eq_false hqd]
        simp
    · by_cases hje : j = e
      · subst hje
        rw [decide_eq_false hjs, decide_eq_true (rfl : j = j)]
        by_cases hqd : q = C ∧ d = us.opponent
        · obtain ⟨hq, hd⟩ := hqd
          subst hq
          subst hd
          have hou : (us.opponent = us) = False := by
            cases us <;> simp [Color.opponent]
          rw [hcapbit]
          simp [hou]
        · have hdus : d = us ∨ d = us.opponent := by
            cases d <;> cases us <;> simp [Color.opponent]
          have hbit : (bs q d).testBit j = false := by
            rcases hdus with hd | hd
            · subst hd
              exact hcapus q
            · subst hd
              have hq : ¬(q = C) := fun hq => hqd ⟨hq, rfl⟩
              cases hx : (bs q us.opponent).testBit j
              · rfl
              · have := hdisj q us.opponent C us.opponent j
                  (fun hc => hq hc.1) hx
                rw [hcapbit] at this
                exact absurd this (by simp)
          rw [hbit, decide_eq_false hqd]
          simp
      · rw [decide_eq_false hjs, decide_eq_false hje]
        simp

/-! The data-model invariants of the spec, as decidable predicates. -/

theorem opponent_opponent (c : Color) : c.opponent.opponent = c := by
  cases c <;> rfl

theorem opponent_ne (c : Color) : c.opponent ≠ c := by
  cases c <;> simp [Color.opponent]

/-- The twelve (piece, color) pairs. -/
def pairsPC : List (Piece × Color) :=
  Piece.all.flatMap fun p => [(p, Color.white), (p, Color.black)]

/-- Representation invariant: each board is a 64-bit value. -/
def GameState.boundedB (st : GameState) : Bool :=
  pairsPC.all fun x => st.pieces x.1 x.2 < 2 ^ 64

/-- Invariant: the twelve piece-color boards are pairwise disjoint. -/
def GameState.disjointB (st : GameState) : Bool :=
  pairsPC.all fun x => pairsPC.all fun y =>
    x = y || st.pieces x.1 x.2 &&& st.pieces y.1 y.2 = 0

/-- Invariant: exactly one king per color. -/
def GameState.oneKingB (st : GameState) : Bool :=
  populationCount (st.pieces .king .white) = 1 &&
  populationCount (st.pieces .king .black) = 1

/-- Invariant: the en-passant square, if set, lies on rank 2 or rank 5. -/
def GameState.epRankB (st : GameState) : Bool :=
  st.enPassantSquare = Square.noSquare ||
  Square.rank st.enPassantSquare = 2 || Square.rank st.enPassantSquare = 5

/-- Invariant: each castling right implies the corresponding rook and the
king sit on their original squares. -/
def GameState.castlingPlacementB (st : GameState) : Bool :=
  (st.castlingRights &&& CastlingRights.whiteQueenSide = 0 ||
    ((st.pieces .rook .white).testBit 0 &&
     (st.pieces .king .white).testBit 4)) &&
  (st.castlingRights &&& CastlingRights.whiteKingSide = 0 ||
    ((st.pieces .rook .white).testBit 7 &&
     (st.pieces .king .white).testBit 4)) &&
  (st.castlingRights &&& CastlingRights.blackQueenSide = 0 ||
    ((st.pieces .rook .black).testBit 56 &&
     (st.pieces .king .black).testBit 60)) &&
  (st.castlingRights &&& CastlingRights.blackKingSide = 0 ||
    ((st.pieces .rook .black).testBit 63 &&
     (st.pieces .king .black).testBit 60))

/-- The five data-model invariants the spec lists for a Position (the
halfmove clock is a Nat, so its nonnegativity is implicit). -/
def GameState.specInvariants (st : GameState) : Prop :=
  st.boundedB = true ∧ st.disjointB = true ∧ st.oneKingB = true ∧
  st.epRankB = true ∧ st.castlingPlacementB = true

/-- En-passant consistency (the amendment of claim C2): when the en-passant
square is set, it is vacant, a pawn of the opponent of the side to move
stands on the square of the pawn to be captured, and the rank of the
square agrees with the side to move. -/
def GameState.epConsistentB (st : GameState) : Bool :=
  !(decide (st.enPassantSquare < 64)) ||
  (!(st.occupancy.testBit st.enPassantSquare) &&
   (st.pieces .pawn st.them).testBit
     (enPassantCapture st.enPassantSquare) &&
   (!(decide (Square.rank st.enPassantSquare = 2)) || decide (st.next = Color.black)) &&
   (!(decide (Square.rank st.enPassantSquare = 5)) || decide (st.next = Color.white)))

theorem bounded_spec {st : GameState} (h : st.boundedB = true) :
    ∀ p c, st.pieces p c < 2 ^ 64 := by
  intro p c
  simp only [GameState.boundedB, pairsPC, Piece.all, List.flatMap_cons,
    List.flatMap_nil, List.all_cons, List.all_nil, List.append_nil,
    List.cons_append, List.nil_append, Bool.and_eq_true, decide_eq_true_eq,
    Bool.and_true] at h
  obtain ⟨h1, h2, h3, h4, h5, h6, h7, h8, h9, h10, h11, h12⟩ := h
  cases p <;> cases c <;> assumption

theorem disjoint_testBit {st : GameState} (h : st.disjointB = true)
    {p q : Piece} {c d : Color} {s : Nat}
    (h1 : (st.pieces p c).testBit s = true)
    (h2 : (st.pieces q d).testBit s = true) : p = q ∧ c = d := by
  by_contra hcon
  have hx : (p, c) ∈ pairsPC := by
    cases p <;> cases c <;> simp [pairsPC, Piece.all]
  have hy : (q, d) ∈ pairsPC := by
    cases q <;> cases d <;> simp [pairsPC, Piece.all]
  have hall := List.all_eq_true.mp (List.all_eq_true.mp h _ hx) _ hy
  rcases Bool.or_eq_true_iff.mp hall with heq | hzero
  · have : (p, c) = (q, d) := by
      exact of_decide_eq_true heq
    apply hcon
    constructor
    · exact congrArg Prod.fst this
    · exact congrArg Prod.snd this
  · have hz : st.pieces p c &&& st.pieces q d = 0 := of_decide_eq_true hzero
    have := testBit_and_intro h1 h2
    rw [hz, Nat.zero_testBit] at this
    exact Bool.false_ne_true this

theorem disjoint_other {st : GameState} (h : st.disjointB = true)
    {p : Piece} {c : Color} {s : Nat}
    (h1 : (st.pieces p c).testBit s = true)
    {q : Piece} {d : Color} (hne : ¬(q = p ∧ d = c)) :
    (st.pieces q d).testBit s = false := by
  cases hx : (st.pieces q d).testBit s
  · rfl
  · obtain ⟨hq, hd⟩ := disjoint_testBit h hx h1
    exact absurd ⟨hq, hd⟩ hne

theorem oneKing_spec {st : GameState} (h : st.oneKingB = true) (c : Color) :
    populationCount (st.pieces .king c) = 1 := by
  rw [GameState.oneKingB, Bool.and_eq_true, decide_eq_true_eq,
    decide_eq_true_eq] at h
  cases c
  · exact h.1
  · exact h.2

theorem populationCount_ne_zero {b : Nat} (h : populationCount b = 1) :
    b ≠ 0 := by
  intro h0
  subst h0
  rw [populationCount_eq_length] at h
  have : bitIndices 0 = [] := by
    simp [bitIndices]
  rw [this] at h
  simp at h

/-- forColor is bounded when the boards are. -/
theorem forColor_lt {st : GameState} (hb : ∀ p c, st.pieces p c < 2 ^ 64)
    (c : Color) : st.forColor c < 2 ^ 64 := by
  unfold GameState.forColor
  exact Nat.or_lt_two_pow
    (Nat.or_lt_two_pow
      (Nat.or_lt_two_pow
        (Nat.or_lt_two_pow (Nat.or_lt_two_pow (hb _ _) (hb _ _)) (hb _ _))
        (hb _ _))
      (hb _ _))
    (hb _ _)

theorem occupancy_lt {st : GameState} (hb : ∀ p c, st.pieces p c < 2 ^ 64) :
    st.occupancy < 2 ^ 64 :=
  Nat.or_lt_two_pow (forColor_lt hb .white) (forColor_lt hb .black)

/-- A piece board contributes to its color board. -/
theorem piece_in_forColor {st : GameState} {p : Piece} {c : Color} {s : Nat}
    (h : (st.pieces p c).testBit s = true) :
    (st.forColor c).testBit s = true := by
  unfold GameState.forColor
  cases p
  · exact testBit_or_left _ (testBit_or_left _ (testBit_or_left _
      (testBit_or_left _ (testBit_or_left _ h))))
  · exact testBit_or_left _ (testBit_or_left _ (testBit_or_left _
      (testBit_or_left _ (testBit_or_right _ h))))
  · exact testBit_or_left _ (testBit_or_left _ (testBit_or_left _
      (testBit_or_right _ h)))
  · exact testBit_or_left _ (testBit_or_left _ (testBit_or_right _ h))
  · exact testBit_or_left _ (testBit_or_right _ h)
  · exact testBit_or_right _ h

/-- A color board contributes to the occupancy. -/
theorem forColor_in_occupancy {st : GameState} {c : Color} {s : Nat}
    (h : (st.forColor c).testBit s = true) :
    st.occupancy.testBit s = true := by
  unfold GameState.occupancy
  cases c
  · exact testBit_or_left _ h
  · exact testBit_or_right _ h

/-- When a color board is clear at a square, so is each of its six piece
boards. -/
theorem forColor_false_all {st : GameState} {c : Color} {s : Nat}
    (h : (st.forColor c).testBit s = false) :
    ∀ q, (st.pieces q c).testBit s = false := by
  intro q
  cases hx : (st.pieces q c).testBit s
  · rfl
  · rw [piece_in_forColor hx] at h
    exact absurd h (by simp)

/-- When the occupancy is clear at a square, so is every board. -/
theorem occupancy_false_all {st : GameState} {s : Nat}
    (h : st.occupancy.testBit s = false) :
    ∀ q d, (st.pieces q d).testBit s = false := by
  intro q d
  cases hx : (st.pieces q d).testBit s
  · rfl
  · rw [forColor_in_occupancy (piece_in_forColor hx)] at h
    exact absurd h (by simp)

theorem testBit_of_and_eq_zero {x m : Nat} (h : x &&& m = 0) {i : Nat}
    (hm : m.testBit i = true) : x.testBit i = false := by
  cases hx : x.testBit i
  · rfl
  · have hh := testBit_and_intro hx hm
    rw [h, Nat.zero_testBit] at hh
    exact absurd hh (by simp)

/-! getPiece on disjoint boards. -/

theorem getPiece_pred_true {st : GameState} {p : Piece} {c : Color} {s : Nat}
    (h : (st.pieces p c).testBit s = true) :
    ((st.pieces p .white ||| st.pieces p .black).testBit s) = true := by
  cases c
  · exact testBit_or_left _ h
  · exact testBit_or_right _ h

theorem getPiece_pred_false {st : GameState} (hd : st.disjointB = true)
    {p : Piece} {c : Color} {s : Nat}
    (h : (st.pieces p c).testBit s = true) {q : Piece} (hne : q ≠ p) :
    ((st.pieces q .white ||| st.pieces q .black).testBit s) = false := by
  rw [Nat.testBit_or]
  apply Bool.or_eq_false_iff.mpr
  exact ⟨disjoint_other hd h (fun hc => hne hc.1),
    disjoint_other hd h (fun hc => hne hc.1)⟩

theorem getPiece_eq {st : GameState} (hd : st.disjointB = true)
    {p : Piece} {c : Color} {s : Nat}
    (h : (st.pieces p c).testBit s = true) :
    st.getPiece s = some p := by
  have hT := getPiece_pred_true h
  have hF := fun (q : Piece) (hne : q ≠ p) => getPiece_pred_false hd h hne
  unfold GameState.getPiece Piece.all
  cases p
  · exact List.find?_cons_of_pos _ hT
  · exact (List.find?_cons_of_neg _ (by simp [hF Piece.pawn (by decide)])).trans
      (List.find?_cons_of_pos _ hT)
  · exact (List.find?_cons_of_neg _ (by simp [hF Piece.pawn (by decide)])).trans
      ((List.find?_cons_of_neg _ (by simp [hF Piece.knight (by decide)])).trans
      (List.find?_cons_of_pos _ hT))
  · exact (List.find?_cons_of_neg _ (by simp [hF Piece.pawn (by decide)])).trans
      ((List.find?_cons_of_neg _ (by simp [hF Piece.knight (by decide)])).trans
      ((List.find?_cons_of_neg _ (by simp [hF Piece.bishop (by decide)])).trans
      (List.find?_cons_of_pos _ hT)))
  · exact (List.find?_cons_of_neg _ (by simp [hF Piece.pawn (by decide)])).trans
      ((List.find?_cons_of_neg _ (by simp [hF Piece.knight (by decide)])).trans
      ((List.find?_cons_of_neg _ (by simp [hF Piece.bishop (by decide)])).trans
      ((List.find?_cons_of_neg _ (by simp [hF Piece.rook (by decide)])).trans
      (List.find?_cons_of_pos _ hT))))
  · exact (List.find?_cons_of_neg _ (by simp [hF Piece.pawn (by decide)])).trans
      ((List.find?_cons_of_neg _ (by simp [hF Piece.knight (by decide)])).trans
      ((List.find?_cons_of_neg _ (by simp [hF Piece.bishop (by decide)])).trans
      ((List.find?_cons_of_neg _ (by simp [hF Piece.rook (by decide)])).trans
      ((List.find?_cons_of_neg _ (by simp [hF Piece.queen (by decide)])).trans
      (List.find?_cons_of_pos _ hT)))))

theorem getPiece_none {st : GameState} {s : Nat}
    (h : ∀ q d, (st.pieces q d).testBit s = false) :
    st.getPiece s = none := by
  unfold GameState.getPiece
  rw [List.find?_eq_none]
  intro p _
  rw [Nat.testBit_or, h p .white, h p .black]
  simp

/-- getPiece finds an occupant. -/
theorem getPiece_some_spec {st : GameState} {s : Nat} {p : Piece}
    (h : st.getPiece s = some p) :
    (st.pieces p .white ||| st.pieces p .black).testBit s = true := by
  have := List.find?_some h
  simpa using this

/-- When getPiece finds nothing, every board is clear at the square. -/
theorem getPiece_none_spec {st : GameState} {s : Nat}
    (h : st.getPiece s = none) :
    ∀ q d, (st.pieces q d).testBit s = false := by
  intro q d
  rw [GameState.getPiece] at h
  have hq : q ∈ Piece.all := by cases q <;> simp [Piece.all]
  have h2 := List.find?_eq_none.mp h q hq
  have h3 : (st.pieces q .white ||| st.pieces q .black).testBit s = false := by
    cases hx : (st.pieces q .white ||| st.pieces q .black).testBit s
    · rfl
    · exact absurd hx h2
  obtain ⟨hw, hb⟩ := testBit_or_false h3
  cases d
  · exact hw
  · exact hb

/-! Facts about getMoves destinations, used for classifying generated
moves. -/

theorem testBit_and_left {a b i : Nat} (h : (a &&& b).testBit i = true) :
    a.testBit i = true := by
  rw [Nat.testBit_and, Bool.and_eq_true] at h
  exact h.1

theorem testBit_and_right {a b i : Nat} (h : (a &&& b).testBit i = true) :
    b.testBit i = true := by
  rw [Nat.testBit_and, Bool.and_eq_true] at h
  exact h.2

/-- getMoves is a 64-bit board (the final `&` with the complement of the
own-color board bounds it). -/
theorem getMoves_lt {st : GameState} (hb : ∀ p c, st.pieces p c < 2 ^ 64)
    (piece : Piece) (color : Color) (square occ : Nat) :
    st.getMoves piece color square occ < 2 ^ 64 :=
  lt_of_le_of_lt Nat.and_le_right (compl64_lt (forColor_lt hb color))

theorem getMovesD_lt {st : GameState} (hb : ∀ p c, st.pieces p c < 2 ^ 64)
    (piece : Piece) (color : Color) (square : Nat) :
    st.getMovesD piece color square < 2 ^ 64 :=
  getMoves_lt hb piece color square st.occupancy

/-- Every getMoves destination is a board square free of the moving
color's pieces. -/
theorem getMoves_dest {st : GameState} (hb : ∀ p c, st.pieces p c < 2 ^ 64)
    {piece : Piece} {color : Color} {s occ e : Nat}
    (h : (st.getMoves piece color s occ).testBit e = true) :
    e < 64 ∧ (st.forColor color).testBit e = false := by
  have he64 : e < 64 := testBit_lt_64 (getMoves_lt hb piece color s occ) h
  refine ⟨he64, ?_⟩
  have h2 : (compl64 (st.forColor color)).testBit e = true := testBit_and_right h
  rw [testBit_compl64, decide_eq_true he64] at h2
  cases hx : (st.forColor color).testBit e
  · rfl
  · rw [hx] at h2
    exact absurd h2 (by decide)

/-- A set bit of `shiftOne e` pins down `e`. -/
theorem shiftOne_testBit_true {e : Int} {i : Nat}
    (h : (shiftOne e).testBit i = true) : 0 ≤ e ∧ e < 64 ∧ (i : Int) = e := by
  rw [shiftOne] at h
  split at h
  · rename_i hc
    rw [show (1 <<< e.toNat) = single e.toNat from rfl, testBit_single] at h
    have hie := of_decide_eq_true h
    refine ⟨hc.1, hc.2, ?_⟩
    rw [hie]
    omega
  · rw [Nat.zero_testBit] at h
    exact absurd h (by simp)

/-- With the en-passant square set, epRankB forces it onto rank 2 or 5. -/
theorem epRank_spec {st : GameState} (h : st.epRankB = true)
    (h64 : st.enPassantSquare < 64) :
    Square.rank st.enPassantSquare = 2 ∨ Square.rank st.enPassantSquare = 5 := by
  rw [GameState.epRankB] at h
  rcases Bool.or_eq_true_iff.mp h with h2 | h2
  · rcases Bool.or_eq_true_iff.mp h2 with h3 | h3
    · have := of_decide_eq_true h3
      rw [Square.noSquare] at this
      omega
    · exact Or.inl (of_decide_eq_true h3)
  · exact Or.inr (of_decide_eq_true h2)

/-- Unpacking epConsistentB when the en-passant square is set: the square
is vacant, the opponent pawn to be captured is in place, and the rank of
the square matches the side to move. -/
theorem epConsistent_spec {st : GameState} (h : st.epConsistentB = true)
    (h64 : st.enPassantSquare < 64) :
    st.occupancy.testBit st.enPassantSquare = false ∧
    (st.pieces .pawn st.them).testBit
      (enPassantCapture st.enPassantSquare) = true ∧
    (Square.rank st.enPassantSquare = 2 → st.next = Color.black) ∧
    (Square.rank st.enPassantSquare = 5 → st.next = Color.white) := by
  rw [GameState.epConsistentB, decide_eq_true h64] at h
  simp only [Bool.not_true, Bool.false_or, Bool.and_eq_true] at h
  obtain ⟨⟨⟨h1, h2⟩, h3⟩, h4⟩ := h
  refine ⟨by rwa [Bool.not_eq_true'] at h1, h2, ?_, ?_⟩
  · intro hr
    rcases Bool.or_eq_true_iff.mp h3 with hx | hx
    · rw [Bool.not_eq_true', decide_eq_false_iff_not] at hx
      exact absurd hr hx
    · exact of_decide_eq_true hx
  · intro hr
    rcases Bool.or_eq_true_iff.mp h4 with hx | hx
    · rw [Bool.not_eq_true', decide_eq_false_iff_not] at hx
      exact absurd hr hx
    · exact of_decide_eq_true hx

theorem us_eq (st : GameState) : st.us = st.next := rfl

theorem them_eq (st : GameState) : st.them = st.next.opponent := rfl

/-- Decomposing a white pawn pseudo-move destination: the single push, the
double push from the home rank, or a square of the given occupancy (a
diagonal capture). -/
theorem getMoves_pawn_dest_white {st : GameState} {s occ e : Nat}
    (h : (st.getMoves .pawn .white s occ).testBit e = true) :
    (shiftOne ((s : Int) + 8)).testBit e = true ∨
    (Square.rank s = 1 ∧
      (shiftOne ((s : Int) + 2 * 8)).testBit e = true) ∨
    occ.testBit e = true := by
  have h1 : (((if (decide (Square.rank s = 1) &&
      !(decide (shiftOne ((s : Int) + 8) &&& compl64 occ = 0))) = true then
      (shiftOne ((s : Int) + 8) &&& compl64 occ) |||
      (shiftOne ((s : Int) + 2 * 8) &&& compl64 occ)
    else
      (shiftOne ((s : Int) + 8) &&& compl64 occ)) |||
    (pawnAttacksB .white s &&& occ)) &&&
    compl64 (st.forColor .white)).testBit e = true := h
  have h2 := testBit_and_left h1
  rw [Nat.testBit_or, Bool.or_eq_true] at h2
  rcases h2 with h3 | h4
  · split at h3
    · rename_i hcond
      rw [Bool.and_eq_true] at hcond
      rw [Nat.testBit_or, Bool.or_eq_true] at h3
      rcases h3 with h5 | h6
      · exact Or.inl (testBit_and_left h5)
      · exact Or.inr (Or.inl
          ⟨of_decide_eq_true hcond.1, testBit_and_left h6⟩)
    · exact Or.inl (testBit_and_left h3)
  · exact Or.inr (Or.inr (testBit_and_right h4))

/-- Decomposing a black pawn pseudo-move destination. -/
theorem getMoves_pawn_dest_black {st : GameState} {s occ e : Nat}
    (h : (st.getMoves .pawn .black s occ).testBit e = true) :
    (shiftOne ((s : Int) + -8)).testBit e = true ∨
    (Square.rank s = 6 ∧
      (shiftOne ((s : Int) + 2 * -8)).testBit e = true) ∨
    occ.testBit e = true := by
  have h1 : (((if (decide (Square.rank s = 6) &&
      !(decide (shiftOne ((s : Int) + -8) &&& compl64 occ = 0))) = true then
      (shiftOne ((s : Int) + -8) &&& compl64 occ) |||
      (shiftOne ((s : Int) + 2 * -8) &&& compl64 occ)
    else
      (shiftOne ((s : Int) + -8) &&& compl64 occ)) |||
    (pawnAttacksB .black s &&& occ)) &&&
    compl64 (st.forColor .black)).testBit e = true := h
  have h2 := testBit_and_left h1
  rw [Nat.testBit_or, Bool.or_eq_true] at h2
  rcases h2 with h3 | h4
  · split at h3
    · rename_i hcond
      rw [Bool.and_eq_true] at hcond
      rw [Nat.testBit_or, Bool.or_eq_true] at h3
      rcases h3 with h5 | h6
      · exact Or.inl (testBit_and_left h5)
      · exact Or.inr (Or.inl
          ⟨of_decide_eq_true hcond.1, testBit_and_left h6⟩)
    · exact Or.inl (testBit_and_left h3)
  · exact Or.inr (Or.inr (testBit_and_right h4))

/-- Under the spec invariants together with en-passant consistency, no
pseudo-legal move of one of the mover's pawns lands on the en-passant
square itself: the square is vacant (no capture), a single push onto it
would have to start on the square of the capturable opponent pawn, and a
double push onto it is excluded by its rank. -/
theorem no_pawn_move_to_ep {st : GameState}
    (hd : st.disjointB = true)
    (hepr : st.epRankB = true) (hepc : st.epConsistentB = true)
    (hep64 : st.enPassantSquare < 64) {s : Nat}
    (hstart : (st.pieces .pawn st.next).testBit s = true)
    (hdest : (st.getMovesD .pawn st.next s).testBit st.enPassantSquare =
      true) : False := by
  obtain ⟨hvac, hopp, hr2, hr5⟩ := epConsistent_spec hepc hep64
  have hrk := epRank_spec hepr hep64
  rw [them_eq] at hopp
  cases hnext : st.next
  · rw [hnext] at hstart hdest hopp
    simp only [Color.opponent] at hopp
    have hrank5 : Square.rank st.enPassantSquare = 5 := by
      rcases hrk with hk | hk
      · rw [hnext] at hr2
        exact absurd (hr2 hk) (by decide)
      · exact hk
    have hcapeq : enPassantCapture st.enPassantSquare =
        st.enPassantSquare - 8 := by
      rw [enPassantCapture, if_neg]
      omega
    rcases getMoves_pawn_dest_white hdest with h1 | ⟨hds, h2⟩ | h3
    · obtain ⟨hge, hlt, heq⟩ := shiftOne_testBit_true h1
      have hs : s = st.enPassantSquare - 8 := by
        unfold Square.rank at hrank5
        omega
      rw [hcapeq] at hopp
      rw [hs] at hstart
      exact absurd (disjoint_testBit hd hstart hopp).2 (by decide)
    · obtain ⟨hge, hlt, heq⟩ := shiftOne_testBit_true h2
      unfold Square.rank at hds hrank5
      omega
    · rw [h3] at hvac
      exact absurd hvac (by decide)
  · rw [hnext] at hstart hdest hopp
    simp only [Color.opponent] at hopp
    have hrank2 : Square.rank st.enPassantSquare = 2 := by
      rcases hrk with hk | hk
      · exact hk
      · rw [hnext] at hr5
        exact absurd (hr5 hk) (by decide)
    have hcapeq : enPassantCapture st.enPassantSquare =
        st.enPassantSquare + 8 :=
      by rw [enPassantCapture, if_pos hrank2]
    rcases getMoves_pawn_dest_black hdest with h1 | ⟨hds, h2⟩ | h3
    · obtain ⟨hge, hlt, heq⟩ := shiftOne_testBit_true h1
      have hs : s = st.enPassantSquare + 8 := by omega
      rw [hcapeq] at hopp
      rw [hs] at hstart
      exact absurd (disjoint_testBit hd hstart hopp).2 (by decide)
    · obtain ⟨hge, hlt, heq⟩ := shiftOne_testBit_true h2
      unfold Square.rank at hds hrank2
      omega
    · rw [h3] at hvac
      exact absurd hvac (by decide)

/-- Unpacking membership in enterMoves: the start square is the given one,
the destination is a set bit of the target-masked end set, and a promotion
is only attached to a pawn move onto the last rank. -/
theorem enterMoves_mem {myColor : Color} {targets start : Nat}
    {piece : Piece} {ends : Nat} {m : Move}
    (hb : ends &&& targets < 2 ^ 64)
    (h : m ∈ enterMoves myColor targets start piece ends) :
    m.start = start ∧ (ends &&& targets).testBit m.endSq = true ∧
    (m.promotion ≠ none → piece = Piece.pawn ∧
      (Square.rank m.endSq = 7 ∨ Square.rank m.endSq = 0)) := by
  unfold enterMoves at h
  rw [List.mem_flatMap] at h
  obtain ⟨e, he, hm⟩ := h
  rw [mem_iterate hb] at he
  split at hm
  · rename_i hcond
    obtain ⟨hp, hrk⟩ := hcond
    have hrk2 : Square.rank e = 7 ∨ Square.rank e = 0 := by
      rcases hrk with ⟨_, h7⟩ | ⟨_, h0⟩
      · exact Or.inl h7
      · exact Or.inr h0
    simp only [List.mem_cons, List.not_mem_nil, or_false] at hm
    rcases hm with rfl | rfl | rfl | rfl
    all_goals exact ⟨rfl, he, fun _ => ⟨hp, hrk2⟩⟩
  · simp only [List.mem_cons, List.not_mem_nil, or_false] at hm
    subst hm
    exact ⟨rfl, he, fun hne => absurd rfl hne⟩

/-- Unpacking membership in standardNonPins: some non-king piece of the
moving color stands on the start square and the destination lies in its
pseudo-move set (in the pinned branch, additionally masked by the pin
ray). -/
theorem standardNonPins_mem {st : GameState} {myColor : Color} {ctx : GenCtx}
    {m : Move} (hb : ∀ p c, st.pieces p c < 2 ^ 64)
    (h : m ∈ standardNonPins st myColor ctx) :
    ∃ piece, piece ∈ Piece.nonKing ∧
      (st.pieces piece myColor).testBit m.start = true ∧
      (st.getMovesD piece myColor m.start).testBit m.endSq = true ∧
      (m.promotion ≠ none → piece = Piece.pawn ∧
        (Square.rank m.endSq = 7 ∨ Square.rank m.endSq = 0)) := by
  unfold standardNonPins at h
  rw [List.mem_flatMap] at h
  obtain ⟨piece, hpiece, hm⟩ := h
  simp only [List.mem_append] at hm
  refine ⟨piece, hpiece, ?_⟩
  rcases hm with hm | hm
  · rw [List.mem_flatMap] at hm
    obtain ⟨s0, hs0, hm⟩ := hm
    have hlt1 : st.forPiece piece myColor &&& compl64 ctx.pins < 2 ^ 64 :=
      and_lt_64 _ (hb piece myColor)
    rw [mem_iterate hlt1] at hs0
    obtain ⟨h1, h2, h3⟩ := enterMoves_mem
      (and_lt_64 _ (getMovesD_lt hb piece myColor s0)) hm
    rw [h1]
    exact ⟨testBit_and_left hs0, testBit_and_left h2, h3⟩
  · rw [List.mem_flatMap] at hm
    obtain ⟨s0, hs0, hm⟩ := hm
    have hlt2 : st.forPiece piece myColor &&& ctx.pins < 2 ^ 64 :=
      and_lt_64 _ (hb piece myColor)
    rw [mem_iterate hlt2] at hs0
    split at hm
    · obtain ⟨h1, h2, h3⟩ := enterMoves_mem
        (and_lt_64 _ (and_lt_64 _ (getMovesD_lt hb piece myColor s0))) hm
      rw [h1]
      exact ⟨testBit_and_left hs0,
        testBit_and_left (testBit_and_left h2), h3⟩
    · exact absurd hm (List.not_mem_nil m)

/-- Unpacking membership in generatePlainKingMoves: the move starts at the
king square, carries no promotion, and its destination lies in the king's
pseudo-move set. -/
theorem generatePlainKingMoves_mem {st : GameState} {myColor : Color}
    {ks : Nat} {m : Move} (hb : ∀ p c, st.pieces p c < 2 ^ 64)
    (h : m ∈ generatePlainKingMoves st myColor ks) :
    m.start = ks ∧ m.promotion = none ∧
    (st.getMovesD .king myColor ks).testBit m.endSq = true := by
  unfold generatePlainKingMoves at h
  simp only [List.mem_flatMap] at h
  obtain ⟨e, he, hm⟩ := h
  rw [mem_iterate (getMovesD_lt hb .king myColor ks)] at he
  split at hm
  · simp only [List.mem_cons, List.not_mem_nil, or_false] at hm
    subst hm
    exact ⟨rfl, rfl, he⟩
  · exact absurd hm (List.not_mem_nil m)

/-- Unpacking membership in generateCastling: the move is one of the four
castles, with its right held and its in-between squares empty. -/
theorem generateCastling_mem {st : GameState} {myColor : Color} {m : Move}
    (h : m ∈ generateCastling st myColor) :
    (myColor = .white ∧ m = wqCastle ∧
      st.castlingRights &&& CastlingRights.whiteQueenSide ≠ 0 ∧
      st.occupancy &&& 0xe = 0) ∨
    (myColor = .white ∧ m = wkCastle ∧
      st.castlingRights &&& CastlingRights.whiteKingSide ≠ 0 ∧
      st.occupancy &&& 0x60 = 0) ∨
    (myColor = .black ∧ m = bqCastle ∧
      st.castlingRights &&& CastlingRights.blackQueenSide ≠ 0 ∧
      st.occupancy &&& 0xe00000000000000 = 0) ∨
    (myColor = .black ∧ m = bkCastle ∧
      st.castlingRights &&& CastlingRights.blackKingSide ≠ 0 ∧
      st.occupancy &&& 0x6000000000000000 = 0) := by
  unfold generateCastling at h
  cases myColor
  · simp only [List.mem_append] at h
    rcases h with h | h
    · split at h
      · rename_i hc
        simp only [List.mem_cons, List.not_mem_nil, or_false] at h
        exact Or.inl ⟨rfl, h, hc.1, hc.2.1⟩
      · exact absurd h (List.not_mem_nil m)
    · split at h
      · rename_i hc
        simp only [List.mem_cons, List.not_mem_nil, or_false] at h
        exact Or.inr (Or.inl ⟨rfl, h, hc.1, hc.2.1⟩)
      · exact absurd h (List.not_mem_nil m)
  · simp only [List.mem_append] at h
    rcases h with h | h
    · split at h
      · rename_i hc
        simp only [List.mem_cons, List.not_mem_nil, or_false] at h
        exact Or.inr (Or.inr (Or.inl ⟨rfl, h, hc.1, hc.2.1⟩))
      · exact absurd h (List.not_mem_nil m)
    · split at h
      · rename_i hc
        simp only [List.mem_cons, List.not_mem_nil, or_false] at h
        exact Or.inr (Or.inr (Or.inr ⟨rfl, h, hc.1, hc.2.1⟩))
      · exact absurd h (List.not_mem_nil m)

/-- Unpacking membership in enPassantCaptures: the mover has a pawn on the
start square, the destination is the en-passant square, and (by its rank)
the move carries no promotion. -/
theorem enPassantCaptures_mem {st : GameState} {myColor : Color}
    {ks : Nat} {ctx : GenCtx} {m : Move}
    (hb : ∀ p c, st.pieces p c < 2 ^ 64) (hepr : st.epRankB = true)
    (hep64 : st.enPassantSquare < 64)
    (h : m ∈ enPassantCaptures st myColor ks ctx) :
    (st.pieces .pawn myColor).testBit m.start = true ∧
    m.endSq = st.enPassantSquare ∧ m.promotion = none := by
  have hsingle_lt : single st.enPassantSquare < 2 ^ 64 := by
    rw [single_eq_two_pow]
    exact Nat.pow_lt_pow_right (by norm_num) hep64
  have helt : st.getMovesD .pawn myColor.opponent st.enPassantSquare &&&
      st.forPiece .pawn myColor < 2 ^ 64 :=
    lt_of_le_of_lt Nat.and_le_right (hb .pawn myColor)
  unfold enPassantCaptures at h
  simp only [] at h
  split at h
  · rename_i hc
    obtain ⟨h1, h2, h3⟩ := enterMoves_mem
      (and_lt_64 _ (and_lt_64 _ hsingle_lt)) h
    have h4 := testBit_and_left (testBit_and_left h2)
    rw [testBit_single] at h4
    have hend := of_decide_eq_true h4
    have hpromo : m.promotion = none := by
      cases hp : m.promotion with
      | none => rfl
      | some pp =>
        obtain ⟨_, hrank⟩ := h3 (by rw [hp]; exact Option.some_ne_none pp)
        rw [hend] at hrank
        rcases epRank_spec hepr hep64 with hk | hk <;> omega
    obtain ⟨hbit, _, _⟩ := findFirstSet_spec helt
      (populationCount_ne_zero hc.2)
    rw [h1]
    exact ⟨testBit_and_right hbit, hend, hpromo⟩
  · simp only [List.mem_flatMap] at h
    obtain ⟨s0, hs0, hm⟩ := h
    have helt2 : st.getMovesD .pawn myColor.opponent st.enPassantSquare &&&
        st.forPiece .pawn myColor < 2 ^ 64 := helt
    rw [mem_iterate helt2] at hs0
    split at hm
    · obtain ⟨h1, h2, h3⟩ := enterMoves_mem
        (and_lt_64 _ (and_lt_64 _ hsingle_lt)) hm
      have h4 := testBit_and_left (testBit_and_left h2)
      rw [testBit_single] at h4
      have hend := of_decide_eq_true h4
      have hpromo : m.promotion = none := by
        cases hp : m.promotion with
        | none => rfl
        | some pp =>
          obtain ⟨_, hrank⟩ := h3 (by rw [hp]; exact Option.some_ne_none pp)
          rw [hend] at hrank
          rcases epRank_spec hepr hep64 with hk | hk <;> omega
      rw [h1]
      exact ⟨testBit_and_right hs0, hend, hpromo⟩
    · obtain ⟨h1, h2, h3⟩ := enterMoves_mem (and_lt_64 _ hsingle_lt) hm
      have h4 := testBit_and_left h2
      rw [testBit_single] at h4
      have hend := of_decide_eq_true h4
      have hpromo : m.promotion = none := by
        cases hp : m.promotion with
        | none => rfl
        | some pp =>
          obtain ⟨_, hrank⟩ := h3 (by rw [hp]; exact Option.some_ne_none pp)
          rw [hend] at hrank
          rcases epRank_spec hepr hep64 with hk | hk <;> omega
      rw [h1]
      exact ⟨testBit_and_right hs0, hend, hpromo⟩

/-- A generated legal move comes from one of the four emitters:
standardNonPins, generateCastling, enPassantCaptures (only with the
en-passant square set), or generatePlainKingMoves. -/
theorem generateLegalMoves_mem {st : GameState} {m : Move}
    (h : m ∈ st.generateLegalMoves) :
    (∃ ctx, m ∈ standardNonPins st st.next ctx) ∨
    m ∈ generateCastling st st.next ∨
    (st.enPassantSquare < 64 ∧
      ∃ ctx, m ∈ enPassantCaptures st st.next
        (findFirstSet (st.forPiece .king st.next)) ctx) ∨
    m ∈ generatePlainKingMoves st st.next
      (findFirstSet (st.forPiece .king st.next)) := by
  have h2 : ∀ (ctx : GenCtx),
      m ∈ ((if ctx.attacksOnKing ≤ 1 then
          standardNonPins st st.next ctx ++
          (if ctx.attacksOnKing = 0 then generateCastling st st.next
           else []) ++
          (if st.enPassantSquare < 64 then
            enPassantCaptures st st.next
              (findFirstSet (st.forPiece .king st.next)) ctx
          else [])
        else []) ++
        generatePlainKingMoves st st.next
          (findFirstSet (st.forPiece .king st.next))) →
      ((∃ ctx, m ∈ standardNonPins st st.next ctx) ∨
        m ∈ generateCastling st st.next ∨
        (st.enPassantSquare < 64 ∧
          ∃ ctx, m ∈ enPassantCaptures st st.next
            (findFirstSet (st.forPiece .king st.next)) ctx) ∨
        m ∈ generatePlainKingMoves st st.next
          (findFirstSet (st.forPiece .king st.next))) := by
    intro ctx hm
    rw [List.mem_append] at hm
    rcases hm with hm | hm
    · split at hm
      · rw [List.mem_append, List.mem_append] at hm
        rcases hm with (hm | hm) | hm
        · exact Or.inl ⟨ctx, hm⟩
        · split at hm
          · exact Or.inr (Or.inl hm)
          · exact absurd hm (List.not_mem_nil m)
        · split at hm
          · rename_i hc
            exact Or.inr (Or.inr (Or.inl ⟨hc, ctx, hm⟩))
          · exact absurd hm (List.not_mem_nil m)
      · exact absurd hm (List.not_mem_nil m)
    · exact Or.inr (Or.inr (Or.inr hm))
  exact h2 _ h

/-- The board round trip of a castle: executing relocates rook (rf to rt)
and king (ks to ke); undoing reverses both.  With the king and rook in
place, the crossed squares empty and all squares distinct, the
composition restores every bit. -/
theorem boards_roundtrip_castle (bs : Piece → Color → Nat) (us : Color)
    (ks ke rf rt : Nat) (hb : ∀ q d, bs q d < 2 ^ 64)
    (hke : ke < 64) (hrt : rt < 64) (hks : ks < 64) (hrf : rf < 64)
    (d1 : ks ≠ ke) (d2 : ks ≠ rf) (d3 : ks ≠ rt)
    (d4 : ke ≠ rf) (d5 : ke ≠ rt) (d6 : rf ≠ rt)
    (hking : (bs .king us).testBit ks = true)
    (hkingonly : ∀ q d, ¬(q = .king ∧ d = us) → (bs q d).testBit ks = false)
    (hrook : (bs .rook us).testBit rf = true)
    (hrookonly : ∀ q d, ¬(q = .rook ∧ d = us) → (bs q d).testBit rf = false)
    (hkeEmpty : ∀ q d, (bs q d).testBit ke = false)
    (hrtEmpty : ∀ q d, (bs q d).testBit rt = false) :
    boardsSet (boardsSet (boardsUnset (boardsUnset
      (boardsSet (boardsUnset (boardsSet (boardsUnset bs rf) rt .rook us)
        ks) ke .king us) ke) rt) rf .rook us) ks .king us = bs := by
  funext q d
  apply Nat.eq_of_testBit_eq
  intro j
  have hb1 := boardsUnset_lt hb rf
  have hb2 := boardsSet_lt hb1 hrt .rook us
  have hb3 := boardsUnset_lt hb2 ks
  have hb4 := boardsSet_lt hb3 hke .king us
  have hb5 := boardsUnset_lt hb4 ke
  rw [boardsSet_testBit, boardsSet_testBit,
    boardsUnset_testBit _ _ _ _ _ (hb5 q d),
    boardsUnset_testBit _ _ _ _ _ (hb4 q d),
    boardsSet_testBit,
    boardsUnset_testBit _ _ _ _ _ (hb2 q d),
    boardsSet_testBit,
    boardsUnset_testBit _ _ _ _ _ (hb q d)]
  by_cases hjks : j = ks
  · subst hjks
    rw [decide_eq_true (rfl : j = j), decide_eq_false d1, decide_eq_false d2,
      decide_eq_false d3]
    by_cases hqd : q = Piece.king ∧ d = us
    · obtain ⟨hq, hd⟩ := hqd
      subst hq
      subst hd
      rw [hking]
      simp
    · rw [hkingonly q d hqd, decide_eq_false hqd]
      simp
  · by_cases hjke : j = ke
    · subst hjke
      rw [decide_eq_false hjks, decide_eq_true (rfl : j = j),
        decide_eq_false d4, decide_eq_false d5, hkeEmpty q d]
      simp
    · by_cases hjrf : j = rf
      · subst hjrf
        rw [decide_eq_false hjks, decide_eq_false hjke,
          decide_eq_true (rfl : j = j), decide_eq_false d6]
        by_cases hqd : q = Piece.rook ∧ d = us
        · obtain ⟨hq, hd⟩ := hqd
          subst hq
          subst hd
          rw [hrook]
          simp
        · rw [hrookonly q d hqd, decide_eq_false hqd]
          simp
      · by_cases hjrt : j = rt
        · subst hjrt
          rw [decide_eq_false hjks, decide_eq_false hjke,
            decide_eq_false (fun h => d6 h.symm),
            decide_eq_true (rfl : j = j), hrtEmpty q d]
          simp
        · rw [decide_eq_false hjks, decide_eq_false hjke,
            decide_eq_false hjrf, decide_eq_false hjrt]
          simp

/-- The board round trip of an en-passant capture: executing clears the
(vacant) destination, removes the captured opponent pawn at c and moves
the capturing pawn from s to e; undoing clears e, re-creates the opponent
pawn at c and restores the capturer at s. -/
theorem boards_roundtrip_ep (bs : Piece → Color → Nat) (us : Color)
    (s e c : Nat) (hb : ∀ q d, bs q d < 2 ^ 64)
    (he64 : e < 64) (hc64 : c < 64)
    (hse : s ≠ e) (hce : c ≠ e) (hsc : s ≠ c)
    (hstart : (bs .pawn us).testBit s = true)
    (hstartonly : ∀ q d, ¬(q = .pawn ∧ d = us) → (bs q d).testBit s = false)
    (hcap : (bs .pawn us.opponent).testBit c = true)
    (hcaponly : ∀ q d, ¬(q = .pawn ∧ d = us.opponent) →
      (bs q d).testBit c = false)
    (heEmpty : ∀ q d, (bs q d).testBit e = false) :
    boardsSet (boardsSet (boardsUnset (boardsSet (boardsUnset (boardsUnset
      (boardsUnset bs e) c) s) e .pawn us) e) c .pawn us.opponent)
      s .pawn us = bs := by
  funext q d
  apply Nat.eq_of_testBit_eq
  intro j
  have hb1 := boardsUnset_lt hb e
  have hb2 := boardsUnset_lt hb1 c
  have hb3 := boardsUnset_lt hb2 s
  have hb4 := boardsSet_lt hb3 he64 .pawn us
  rw [boardsSet_testBit, boardsSet_testBit,
    boardsUnset_testBit _ _ _ _ _ (hb4 q d),
    boardsSet_testBit,
    boardsUnset_testBit _ _ _ _ _ (hb2 q d),
    boardsUnset_testBit _ _ _ _ _ (hb1 q d),
    boardsUnset_testBit _ _ _ _ _ (hb q d)]
  by_cases hjs : j = s
  · subst hjs
    rw [decide_eq_true (rfl : j = j), decide_eq_false hse,
      decide_eq_false hsc]
    by_cases hqd : q = Piece.pawn ∧ d = us
    · obtain ⟨hq, hd⟩ := hqd
      subst hq
      subst hd
      rw [hstart]
      simp
    · rw [hstartonly q d hqd, decide_eq_false hqd]
      by_cases hqd2 : q = Piece.pawn ∧ d = us.opponent
      · obtain ⟨hq, hd⟩ := hqd2
        subst hq
        subst hd
        simp
      · rw [decide_eq_false hqd2]
        simp
  · by_cases hje : j = e
    · subst hje
      rw [decide_eq_false hjs, decide_eq_false (Ne.symm hce),
        decide_eq_true (rfl : j = j), heEmpty q d]
      simp
    · by_cases hjc : j = c
      · subst hjc
        rw [decide_eq_false hjs, decide_eq_false hje,
          decide_eq_true (rfl : j = j)]
        by_cases hqd : q = Piece.pawn ∧ d = us.opponent
        · obtain ⟨hq, hd⟩ := hqd
          subst hq
          subst hd
          rw [hcap]
          simp
        · rw [hcaponly q d hqd, decide_eq_false hqd]
          simp
      · rw [decide_eq_false hjs, decide_eq_false hje, decide_eq_false hjc]
        simp

/-- Classification of UndoInfo.make for a plain (non-en-passant, non-castle)
move: the flags record only a possible promotion and the capture is the
occupant of the destination. -/
theorem UndoInfo.make_plain (st : GameState) (m : Move)
    (h1 : ¬(st.enPassantSquare = m.endSq ∧
      st.getPiece m.start = some Piece.pawn))
    (h2 : ¬(m = wkCastle ∧ st.getPiece m.start = some Piece.king))
    (h3 : ¬(m = wqCastle ∧ st.getPiece m.start = some Piece.king))
    (h4 : ¬(m = bkCastle ∧ st.getPiece m.start = some Piece.king))
    (h5 : ¬(m = bqCastle ∧ st.getPiece m.start = some Piece.king)) :
    (UndoInfo.make st m).flags =
      (if m.promotion ≠ none then MoveFlags.promotion else MoveFlags.none) ∧
    (UndoInfo.make st m).capture = st.getPiece m.endSq := by
  unfold UndoInfo.make
  dsimp only
  rw [if_neg h1, if_neg h2, if_neg h3, if_neg h4, if_neg h5]
  split
  · exact ⟨rfl, rfl⟩
  · exact ⟨rfl, rfl⟩

/-- Classification of UndoInfo.make for a pawn moving onto the en-passant
square: the move is recorded as an en-passant capture of a pawn. -/
theorem UndoInfo.make_ep (st : GameState) (m : Move)
    (h : st.enPassantSquare = m.endSq ∧
      st.getPiece m.start = some Piece.pawn) :
    (UndoInfo.make st m).flags = MoveFlags.enPassant ∧
    (UndoInfo.make st m).capture = some Piece.pawn := by
  unfold UndoInfo.make
  dsimp only
  rw [if_pos h]
  exact ⟨rfl, rfl⟩

/-- Classification of UndoInfo.make for the white king-side castle. -/
theorem UndoInfo.make_castle_wk (st : GameState) (m : Move)
    (h1 : ¬(st.enPassantSquare = m.endSq ∧
      st.getPiece m.start = some Piece.pawn))
    (h2 : m = wkCastle ∧ st.getPiece m.start = some Piece.king) :
    (UndoInfo.make st m).flags = MoveFlags.whiteKingSide ∧
    (UndoInfo.make st m).capture = st.getPiece m.endSq := by
  unfold UndoInfo.make
  dsimp only
  rw [if_neg h1, if_pos h2]
  exact ⟨rfl, rfl⟩

/-- Classification of UndoInfo.make for the white queen-side castle. -/
theorem UndoInfo.make_castle_wq (st : GameState) (m : Move)
    (h1 : ¬(st.enPassantSquare = m.endSq ∧
      st.getPiece m.start = some Piece.pawn))
    (h2 : ¬(m = wkCastle ∧ st.getPiece m.start = some Piece.king))
    (h3 : m = wqCastle ∧ st.getPiece m.start = some Piece.king) :
    (UndoInfo.make st m).flags = MoveFlags.whiteQueenSide ∧
    (UndoInfo.make st m).capture = st.getPiece m.endSq := by
  unfold UndoInfo.make
  dsimp only
  rw [if_neg h1, if_neg h2, if_pos h3]
  exact ⟨rfl, rfl⟩

/-- Classification of UndoInfo.make for the black king-side castle. -/
theorem UndoInfo.make_castle_bk (st : GameState) (m : Move)
    (h1 : ¬(st.enPassantSquare = m.endSq ∧
      st.getPiece m.start = some Piece.pawn))
    (h2 : ¬(m = wkCastle ∧ st.getPiece m.start = some Piece.king))
    (h3 : ¬(m = wqCastle ∧ st.getPiece m.start = some Piece.king))
    (h4 : m = bkCastle ∧ st.getPiece m.start = some Piece.king) :
    (UndoInfo.make st m).flags = MoveFlags.blackKingSide ∧
    (UndoInfo.make st m).capture = st.getPiece m.endSq := by
  unfold UndoInfo.make
  dsimp only
  rw [if_neg h1, if_neg h2, if_neg h3, if_pos h4]
  exact ⟨rfl, rfl⟩

/-- Classification of UndoInfo.make for the black queen-side castle. -/
theorem UndoInfo.make_castle_bq (st : GameState) (m : Move)
    (h1 : ¬(st.enPassantSquare = m.endSq ∧
      st.getPiece m.start = some Piece.pawn))
    (h2 : ¬(m = wkCastle ∧ st.getPiece m.start = some Piece.king))
    (h3 : ¬(m = wqCastle ∧ st.getPiece m.start = some Piece.king))
    (h4 : ¬(m = bkCastle ∧ st.getPiece m.start = some Piece.king))
    (h5 : m = bqCastle ∧ st.getPiece m.start = some Piece.king) :
    (UndoInfo.make st m).flags = MoveFlags.blackQueenSide ∧
    (UndoInfo.make st m).capture = st.getPiece m.endSq := by
  unfold UndoInfo.make
  dsimp only
  rw [if_neg h1, if_neg h2, if_neg h3, if_neg h4, if_pos h5]
  exact ⟨rfl, rfl⟩

/-- Composing executeMove with undoMove: the scalar fields come straight
back from the popped journal record, so only the board reversal remains
open. -/
theorem executeMove_undoMove_eq (st : GameState) (m : Move) :
    (st.executeMove m).undoMove =
      { pieces := undoMoveBoards
          (executeMoveBoards st.pieces st.next m (UndoInfo.make st m))
          st.next (UndoInfo.make st m),
        next := st.next,
        castlingRights := st.castlingRights,
        enPassantSquare := st.enPassantSquare,
        uneventfulHalfMoves := st.uneventfulHalfMoves,
        undoStack := st.undoStack } := by
  have h1 : (st.executeMove m).undoMove =
      { pieces := undoMoveBoards (st.executeMove m).pieces
          (st.executeMove m).them (UndoInfo.make st m),
        next := (st.executeMove m).them,
        castlingRights := (UndoInfo.make st m).castlingRights,
        enPassantSquare := (UndoInfo.make st m).enPassant,
        uneventfulHalfMoves := (UndoInfo.make st m).uneventfulHalfMoves,
        undoStack := st.undoStack } := rfl
  have h2 : (st.executeMove m).them = st.next := by
    rw [them_eq, executeMove_next, them_eq, opponent_opponent]
  rw [h1, h2, executeMove_pieces, us_eq, UndoInfo.make_enPassant,
    UndoInfo.make_castlingRights, UndoInfo.make_uneventfulHalfMoves]

/-- Board bridge for a plain (possibly capturing, possibly promoting)
move: with the journal record classified, the execute/undo composition is
exactly the plain round trip. -/
theorem exec_undo_boards_plain (bs : Piece → Color → Nat) (us : Color)
    (m : Move) (info : UndoInfo) (P : Piece)
    (hstart : info.start = m.start) (hend : info.endSq = m.endSq)
    (hpiece : info.piece = some P)
    (hflags : info.flags = if m.promotion ≠ none then MoveFlags.promotion
      else MoveFlags.none)
    (hb : ∀ q d, bs q d < 2 ^ 64) (he64 : m.endSq < 64)
    (hne : m.start ≠ m.endSq)
    (hP : ∀ pp, m.promotion = some pp → P = Piece.pawn)
    (hdisj : ∀ q d q2 d2 j, ¬(q = q2 ∧ d = d2) →
      (bs q d).testBit j = true → (bs q2 d2).testBit j = false)
    (hstartbit : (bs P us).testBit m.start = true)
    (hcapn : info.capture = none → ∀ q d, (bs q d).testBit m.endSq = false)
    (hcaps : ∀ C, info.capture = some C →
      (bs C us.opponent).testBit m.endSq = true ∧
      ∀ q, (bs q us).testBit m.endSq = false) :
    undoMoveBoards (executeMoveBoards bs us m info) us info = bs := by
  rcases hpm : m.promotion with _ | pp
  · have hfl : info.flags = MoveFlags.none := by
      rw [hflags, hpm]
      simp
    rcases hcapc : info.capture with _ | C
    · unfold undoMoveBoards executeMoveBoards
      simp only [hstart, hend, hpiece, hfl, hcapc, hpm]
      exact boards_roundtrip_plain bs us m.start m.endSq P P none hb he64
        hne hdisj hstartbit (hcapn hcapc)
    · unfold undoMoveBoards executeMoveBoards
      simp only [hstart, hend, hpiece, hfl, hcapc, hpm]
      exact boards_roundtrip_plain bs us m.start m.endSq P P (some C) hb
        he64 hne hdisj hstartbit (hcaps C hcapc)
  · have hPp := hP pp hpm
    subst hPp
    have hfl : info.flags = MoveFlags.promotion := by
      rw [hflags, hpm]
      simp
    rcases hcapc : info.capture with _ | C
    · unfold undoMoveBoards executeMoveBoards
      simp only [hstart, hend, hpiece, hfl, hcapc, hpm]
      exact boards_roundtrip_plain bs us m.start m.endSq Piece.pawn pp none
        hb he64 hne hdisj hstartbit (hcapn hcapc)
    · unfold undoMoveBoards executeMoveBoards
      simp only [hstart, hend, hpiece, hfl, hcapc, hpm]
      exact boards_roundtrip_plain bs us m.start m.endSq Piece.pawn pp
        (some C) hb he64 hne hdisj hstartbit (hcaps C hcapc)

/-- Board bridge for an en-passant capture. -/
theorem exec_undo_boards_ep (bs : Piece → Color → Nat) (us : Color)
    (m : Move) (info : UndoInfo) (e c : Nat)
    (hstart : info.start = m.start) (hend : info.endSq = e)
    (hpiece : info.piece = some Piece.pawn)
    (hcapc : info.capture = some Piece.pawn)
    (hflags : info.flags = MoveFlags.enPassant)
    (hpm : m.promotion = none)
    (hcapSq : enPassantCapture info.enPassant = c)
    (hb : ∀ q d, bs q d < 2 ^ 64) (he64 : e < 64) (hc64 : c < 64)
    (hse : m.start ≠ e) (hce : c ≠ e) (hsc : m.start ≠ c)
    (hstartbit : (bs .pawn us).testBit m.start = true)
    (hstartonly : ∀ q d, ¬(q = .pawn ∧ d = us) →
      (bs q d).testBit m.start = false)
    (hcapbit : (bs .pawn us.opponent).testBit c = true)
    (hcaponly : ∀ q d, ¬(q = .pawn ∧ d = us.opponent) →
      (bs q d).testBit c = false)
    (heEmpty : ∀ q d, (bs q d).testBit e = false) :
    undoMoveBoards (executeMoveBoards bs us m info) us info = bs := by
  unfold undoMoveBoards executeMoveBoards
  simp only [hstart, hend, hpiece, hcapc, hflags, hpm, hcapSq]
  exact boards_roundtrip_ep bs us m.start e c hb he64 hc64 hse hce hsc
    hstartbit hstartonly hcapbit hcaponly heEmpty

/-- Board bridge for the white king-side castle. -/
theorem exec_undo_boards_castle_wk (bs : Piece → Color → Nat) (us : Color)
    (m : Move) (info : UndoInfo)
    (hstart : info.start = 4) (hend : info.endSq = 6)
    (hpiece : info.piece = some Piece.king)
    (hcapc : info.capture = none)
    (hflags : info.flags = MoveFlags.whiteKingSide)
    (hpm : m.promotion = none)
    (hb : ∀ q d, bs q d < 2 ^ 64)
    (hking : (bs .king us).testBit 4 = true)
    (hkingonly : ∀ q d, ¬(q = .king ∧ d = us) → (bs q d).testBit 4 = false)
    (hrook : (bs .rook us).testBit 7 = true)
    (hrookonly : ∀ q d, ¬(q = .rook ∧ d = us) → (bs q d).testBit 7 = false)
    (hkeEmpty : ∀ q d, (bs q d).testBit 6 = false)
    (hrtEmpty : ∀ q d, (bs q d).testBit 5 = false) :
    undoMoveBoards (executeMoveBoards bs us m info) us info = bs := by
  unfold undoMoveBoards executeMoveBoards
  simp only [hstart, hend, hpiece, hcapc, hflags, hpm]
  exact boards_roundtrip_castle bs us 4 6 7 5 hb (by norm_num) (by norm_num)
    (by norm_num) (by norm_num) (by decide) (by decide) (by decide)
    (by decide) (by decide) (by decide) hking hkingonly hrook hrookonly
    hkeEmpty hrtEmpty

/-- Board bridge for the white queen-side castle. -/
theorem exec_undo_boards_castle_wq (bs : Piece → Color → Nat) (us : Color)
    (m : Move) (info : UndoInfo)
    (hstart : info.start = 4) (hend : info.endSq = 2)
    (hpiece : info.piece = some Piece.king)
    (hcapc : info.capture = none)
    (hflags : info.flags = MoveFlags.whiteQueenSide)
    (hpm : m.promotion = none)
    (hb : ∀ q d, bs q d < 2 ^ 64)
    (hking : (bs .king us).testBit 4 = true)
    (hkingonly : ∀ q d, ¬(q = .king ∧ d = us) → (bs q d).testBit 4 = false)
    (hrook : (bs .rook us).testBit 0 = true)
    (hrookonly : ∀ q d, ¬(q = .rook ∧ d = us) → (bs q d).testBit 0 = false)
    (hkeEmpty : ∀ q d, (bs q d).testBit 2 = false)
    (hrtEmpty : ∀ q d, (bs q d).testBit 3 = false) :
    undoMoveBoards (executeMoveBoards bs us m info) us info = bs := by
  unfold undoMoveBoards executeMoveBoards
  simp only [hstart, hend, hpiece, hcapc, hflags, hpm]
  exact boards_roundtrip_castle bs us 4 2 0 3 hb (by norm_num) (by norm_num)
    (by norm_num) (by norm_num) (by decide) (by decide) (by decide)
    (by decide) (by decide) (by decide) hking hkingonly hrook hrookonly
    hkeEmpty hrtEmpty

/-- Board bridge for the black king-side castle. -/
theorem exec_undo_boards_castle_bk (bs : Piece → Color → Nat) (us : Color)
    (m : Move) (info : UndoInfo)
    (hstart : info.start = 60) (hend : info.endSq = 62)
    (hpiece : info.piece = some Piece.king)
    (hcapc : info.capture = none)
    (hflags : info.flags = MoveFlags.blackKingSide)
    (hpm : m.promotion = none)
    (hb : ∀ q d, bs q d < 2 ^ 64)
    (hking : (bs .king us).testBit 60 = true)
    (hkingonly : ∀ q d, ¬(q = .king ∧ d = us) → (bs q d).testBit 60 = false)
    (hrook : (bs .rook us).testBit 63 = true)
    (hrookonly : ∀ q d, ¬(q = .rook ∧ d = us) → (bs q d).testBit 63 = false)
    (hkeEmpty : ∀ q d, (bs q d).testBit 62 = false)
    (hrtEmpty : ∀ q d, (bs q d).testBit 61 = false) :
    undoMoveBoards (executeMoveBoards bs us m info) us info = bs := by
  unfold undoMoveBoards executeMoveBoards
  simp only [hstart, hend, hpiece, hcapc, hflags, hpm]
  exact boards_roundtrip_castle bs us 60 62 63 61 hb (by norm_num)
    (by norm_num) (by norm_num) (by norm_num) (by decide) (by decide)
    (by decide) (by decide) (by decide) (by decide) hking hkingonly hrook
    hrookonly hkeEmpty hrtEmpty

/-- Board bridge for the black queen-side castle. -/
theorem exec_undo_boards_castle_bq (bs : Piece → Color → Nat) (us : Color)
    (m : Move) (info : UndoInfo)
    (hstart : info.start = 60) (hend : info.endSq = 58)
    (hpiece : info.piece = some Piece.king)
    (hcapc : info.capture = none)
    (hflags : info.flags = MoveFlags.blackQueenSide)
    (hpm : m.promotion = none)
    (hb : ∀ q d, bs q d < 2 ^ 64)
    (hking : (bs .king us).testBit 60 = true)
    (hkingonly : ∀ q d, ¬(q = .king ∧ d = us) → (bs q d).testBit 60 = false)
    (hrook : (bs .rook us).testBit 56 = true)
    (hrookonly : ∀ q d, ¬(q = .rook ∧ d = us) → (bs q d).testBit 56 = false)
    (hkeEmpty : ∀ q d, (bs q d).testBit 58 = false)
    (hrtEmpty : ∀ q d, (bs q d).testBit 59 = false) :
    undoMoveBoards (executeMoveBoards bs us m info) us info = bs := by
  unfold undoMoveBoards executeMoveBoards
  simp only [hstart, hend, hpiece, hcapc, hflags, hpm]
  exact boards_roundtrip_castle bs us 60 58 56 59 hb (by norm_num)
    (by norm_num) (by norm_num) (by norm_num) (by decide) (by decide)
    (by decide) (by decide) (by decide) (by decide) hking hkingonly hrook
    hrookonly hkeEmpty hrtEmpty

/-- Unpacking castlingPlacementB: each held right places the rook and the
king on their home squares. -/
theorem castlingPlacement_spec {st : GameState}
    (h : st.castlingPlacementB = true) :
    (st.castlingRights &&& CastlingRights.whiteQueenSide ≠ 0 →
      (st.pieces .rook .white).testBit 0 = true ∧
      (st.pieces .king .white).testBit 4 = true) ∧
    (st.castlingRights &&& CastlingRights.whiteKingSide ≠ 0 →
      (st.pieces .rook .white).testBit 7 = true ∧
      (st.pieces .king .white).testBit 4 = true) ∧
    (st.castlingRights &&& CastlingRights.blackQueenSide ≠ 0 →
      (st.pieces .rook .black).testBit 56 = true ∧
      (st.pieces .king .black).testBit 60 = true) ∧
    (st.castlingRights &&& CastlingRights.blackKingSide ≠ 0 →
      (st.pieces .rook .black).testBit 63 = true ∧
      (st.pieces .king .black).testBit 60 = true) := by
  rw [GameState.castlingPlacementB] at h
  simp only [Bool.and_eq_true] at h
  obtain ⟨⟨⟨h1, h2⟩, h3⟩, h4⟩ := h
  refine ⟨fun hne => ?_, fun hne => ?_, fun hne => ?_, fun hne => ?_⟩
  · rcases Bool.or_eq_true_iff.mp h1 with hx | hx
    · exact absurd (of_decide_eq_true hx) hne
    · rw [Bool.and_eq_true] at hx
      exact hx
  · rcases Bool.or_eq_true_iff.mp h2 with hx | hx
    · exact absurd (of_decide_eq_true hx) hne
    · rw [Bool.and_eq_true] at hx
      exact hx
  · rcases Bool.or_eq_true_iff.mp h3 with hx | hx
    · exact absurd (of_decide_eq_true hx) hne
    · rw [Bool.and_eq_true] at hx
      exact hx
  · rcases Bool.or_eq_true_iff.mp h4 with hx | hx
    · exact absurd (of_decide_eq_true hx) hne
    · rw [Bool.and_eq_true] at hx
      exact hx

/-- The execute/undo round trip for a standard move: a piece of the mover
stands on the start square, the destination lies in its pseudo-move set,
a promotion implies a pawn, and (for a king) the move is none of the four
castle encodings.  The journal record then classifies as plain and the
board mutations cancel. -/
theorem executeMove_undoMove_standard (st : GameState) (m : Move)
    (piece : Piece)
    (hb : st.boundedB = true) (hd : st.disjointB = true)
    (hepr : st.epRankB = true) (hepc : st.epConsistentB = true)
    (hstart : (st.pieces piece st.next).testBit m.start = true)
    (hdest : (st.getMovesD piece st.next m.start).testBit m.endSq = true)
    (hpromo : ∀ pp, m.promotion = some pp → piece = Piece.pawn)
    (hnotc : piece = Piece.king → m ≠ wkCastle ∧ m ≠ wqCastle ∧
      m ≠ bkCastle ∧ m ≠ bqCastle) :
    (st.executeMove m).undoMove = st := by
  have hb' := bounded_spec hb
  have hgp : st.getPiece m.start = some piece := getPiece_eq hd hstart
  obtain ⟨he64, hnotOwn⟩ := getMoves_dest hb' hdest
  have hne : m.start ≠ m.endSq := by
    intro he
    rw [he] at hstart
    rw [piece_in_forColor hstart] at hnotOwn
    exact absurd hnotOwn (by decide)
  have hepn : ¬(st.enPassantSquare = m.endSq ∧
      st.getPiece m.start = some Piece.pawn) := by
    rintro ⟨hep, hpw⟩
    rw [hgp] at hpw
    injection hpw with hpp
    subst hpp
    have hep64 : st.enPassantSquare < 64 := by
      rw [hep]
      exact he64
    have hdest2 : (st.getMovesD .pawn st.next m.start).testBit
        st.enPassantSquare = true := by
      rw [hep]
      exact hdest
    exact no_pawn_move_to_ep hd hepr hepc hep64 hstart hdest2
  have hc1 : ¬(m = wkCastle ∧ st.getPiece m.start = some Piece.king) := by
    rintro ⟨hm1, hk1⟩
    rw [hgp] at hk1
    injection hk1 with hk2
    exact (hnotc hk2).1 hm1
  have hc2 : ¬(m = wqCastle ∧ st.getPiece m.start = some Piece.king) := by
    rintro ⟨hm1, hk1⟩
    rw [hgp] at hk1
    injection hk1 with hk2
    exact (hnotc hk2).2.1 hm1
  have hc3 : ¬(m = bkCastle ∧ st.getPiece m.start = some Piece.king) := by
    rintro ⟨hm1, hk1⟩
    rw [hgp] at hk1
    injection hk1 with hk2
    exact (hnotc hk2).2.2.1 hm1
  have hc4 : ¬(m = bqCastle ∧ st.getPiece m.start = some Piece.king) := by
    rintro ⟨hm1, hk1⟩
    rw [hgp] at hk1
    injection hk1 with hk2
    exact (hnotc hk2).2.2.2 hm1
  obtain ⟨hfl, hcap⟩ := UndoInfo.make_plain st m hepn hc1 hc2 hc3 hc4
  have hownall : ∀ q, (st.pieces q st.next).testBit m.endSq = false :=
    forColor_false_all hnotOwn
  have hcapn : (UndoInfo.make st m).capture = none →
      ∀ q d, (st.pieces q d).testBit m.endSq = false := by
    intro hc
    rw [hcap] at hc
    exact getPiece_none_spec hc
  have hcaps : ∀ C, (UndoInfo.make st m).capture = some C →
      (st.pieces C st.next.opponent).testBit m.endSq = true ∧
      ∀ q, (st.pieces q st.next).testBit m.endSq = false := by
    intro C hc
    rw [hcap] at hc
    have hor := getPiece_some_spec hc
    rw [Nat.testBit_or, Bool.or_eq_true] at hor
    refine ⟨?_, hownall⟩
    cases hnext : st.next
    · rcases hor with hw | hbk
      · rw [hnext] at hownall
        rw [hownall C] at hw
        exact absurd hw (by decide)
      · exact hbk
    · rcases hor with hw | hbk
      · exact hw
      · rw [hnext] at hownall
        rw [hownall C] at hbk
        exact absurd hbk (by decide)
  rw [executeMove_undoMove_eq]
  have hboards : undoMoveBoards
      (executeMoveBoards st.pieces st.next m (UndoInfo.make st m))
      st.next (UndoInfo.make st m) = st.pieces :=
    exec_undo_boards_plain st.pieces st.next m (UndoInfo.make st m) piece
      (UndoInfo.make_start st m) (UndoInfo.make_endSq st m)
      (by rw [UndoInfo.make_piece, hgp]) hfl hb' he64 hne hpromo
      (fun q d q2 d2 j hne2 hbit =>
        disjoint_other hd hbit (fun hc => hne2 ⟨hc.1.symm, hc.2.symm⟩))
      hstart hcapn hcaps
  rw [hboards]

/-- The execute/undo round trip for the white king-side castle. -/
theorem executeMove_undoMove_castle_wk (st : GameState)
    (hb : st.boundedB = true) (hd : st.disjointB = true)
    (hcp : st.castlingPlacementB = true)
    (hnext : st.next = Color.white)
    (hright : st.castlingRights &&& CastlingRights.whiteKingSide ≠ 0)
    (hempty : st.occupancy &&& 0x60 = 0) :
    (st.executeMove wkCastle).undoMove = st := by
  have hb' := bounded_spec hb
  obtain ⟨_, hwk, _, _⟩ := castlingPlacement_spec hcp
  obtain ⟨hrook, hking⟩ := hwk hright
  have h5all := occupancy_false_all
    (testBit_of_and_eq_zero hempty (by decide) : st.occupancy.testBit 5 = false)
  have h6all := occupancy_false_all
    (testBit_of_and_eq_zero hempty (by decide) : st.occupancy.testBit 6 = false)
  have hkingn : (st.pieces .king st.next).testBit 4 = true := by
    rw [hnext]
    exact hking
  have hrookn : (st.pieces .rook st.next).testBit 7 = true := by
    rw [hnext]
    exact hrook
  have hgp2 : st.getPiece wkCastle.start = some Piece.king :=
    getPiece_eq hd hkingn
  have hepn : ¬(st.enPassantSquare = wkCastle.endSq ∧
      st.getPiece wkCastle.start = some Piece.pawn) := by
    rintro ⟨_, hpw⟩
    rw [hgp2] at hpw
    injection hpw with hx
    exact Piece.noConfusion hx
  obtain ⟨hfl, hcap⟩ := UndoInfo.make_castle_wk st wkCastle hepn ⟨rfl, hgp2⟩
  have hcapn : (UndoInfo.make st wkCastle).capture = none := by
    rw [hcap]
    exact getPiece_none h6all
  rw [executeMove_undoMove_eq]
  have hboards : undoMoveBoards
      (executeMoveBoards st.pieces st.next wkCastle
        (UndoInfo.make st wkCastle))
      st.next (UndoInfo.make st wkCastle) = st.pieces :=
    exec_undo_boards_castle_wk st.pieces st.next wkCastle
      (UndoInfo.make st wkCastle)
      (UndoInfo.make_start st wkCastle) (UndoInfo.make_endSq st wkCastle)
      (by rw [UndoInfo.make_piece]; exact hgp2) hcapn hfl rfl hb'
      hkingn (fun q d hne => disjoint_other hd hkingn hne)
      hrookn (fun q d hne => disjoint_other hd hrookn hne)
      h6all h5all
  rw [hboards]

/-- The execute/undo round trip for the white queen-side castle. -/
theorem executeMove_undoMove_castle_wq (st : GameState)
    (hb : st.boundedB = true) (hd : st.disjointB = true)
    (hcp : st.castlingPlacementB = true)
    (hnext : st.next = Color.white)
    (hright : st.castlingRights &&& CastlingRights.whiteQueenSide ≠ 0)
    (hempty : st.occupancy &&& 0xe = 0) :
    (st.executeMove wqCastle).undoMove = st := by
  have hb' := bounded_spec hb
  obtain ⟨hwq, _, _, _⟩ := castlingPlacement_spec hcp
  obtain ⟨hrook, hking⟩ := hwq hright
  have h3all := occupancy_false_all
    (testBit_of_and_eq_zero hempty (by decide) : st.occupancy.testBit 3 = false)
  have h2all := occupancy_false_all
    (testBit_of_and_eq_zero hempty (by decide) : st.occupancy.testBit 2 = false)
  have hkingn : (st.pieces .king st.next).testBit 4 = true := by
    rw [hnext]
    exact hking
  have hrookn : (st.pieces .rook st.next).testBit 0 = true := by
    rw [hnext]
    exact hrook
  have hgp2 : st.getPiece wqCastle.start = some Piece.king :=
    getPiece_eq hd hkingn
  have hepn : ¬(st.enPassantSquare = wqCastle.endSq ∧
      st.getPiece wqCastle.start = some Piece.pawn) := by
    rintro ⟨_, hpw⟩
    rw [hgp2] at hpw
    injection hpw with hx
    exact Piece.noConfusion hx
  obtain ⟨hfl, hcap⟩ := UndoInfo.make_castle_wq st wqCastle hepn
    (by rintro ⟨hx, _⟩; exact absurd hx (by decide)) ⟨rfl, hgp2⟩
  have hcapn : (UndoInfo.make st wqCastle).capture = none := by
    rw [hcap]
    exact getPiece_none h2all
  rw [executeMove_undoMove_eq]
  have hboards : undoMoveBoards
      (executeMoveBoards st.pieces st.next wqCastle
        (UndoInfo.make st wqCastle))
      st.next (UndoInfo.make st wqCastle) = st.pieces :=
    exec_undo_boards_castle_wq st.pieces st.next wqCastle
      (UndoInfo.make st wqCastle)
      (UndoInfo.make_start st wqCastle) (UndoInfo.make_endSq st wqCastle)
      (by rw [UndoInfo.make_piece]; exact hgp2) hcapn hfl rfl hb'
      hkingn (fun q d hne => disjoint_other hd hkingn hne)
      hrookn (fun q d hne => disjoint_other hd hrookn hne)
      h2all h3all
  rw [hboards]

/-- The execute/undo round trip for the black king-side castle. -/
theorem executeMove_undoMove_castle_bk (st : GameState)
    (hb : st.boundedB = true) (hd : st.disjointB = true)
    (hcp : st.castlingPlacementB = true)
    (hnext : st.next = Color.black)
    (hright : st.castlingRights &&& CastlingRights.blackKingSide ≠ 0)
    (hempty : st.occupancy &&& 0x6000000000000000 = 0) :
    (st.executeMove bkCastle).undoMove = st := by
  have hb' := bounded_spec hb
  obtain ⟨_, _, _, hbk⟩ := castlingPlacement_spec hcp
  obtain ⟨hrook, hking⟩ := hbk hright
  have h61all := occupancy_false_all
    (testBit_of_and_eq_zero hempty (by decide) :
      st.occupancy.testBit 61 = false)
  have h62all := occupancy_false_all
    (testBit_of_and_eq_zero hempty (by decide) :
      st.occupancy.testBit 62 = false)
  have hkingn : (st.pieces .king st.next).testBit 60 = true := by
    rw [hnext]
    exact hking
  have hrookn : (st.pieces .rook st.next).testBit 63 = true := by
    rw [hnext]
    exact hrook
  have hgp2 : st.getPiece bkCastle.start = some Piece.king :=
    getPiece_eq hd hkingn
  have hepn : ¬(st.enPassantSquare = bkCastle.endSq ∧
      st.getPiece bkCastle.start = some Piece.pawn) := by
    rintro ⟨_, hpw⟩
    rw [hgp2] at hpw
    injection hpw with hx
    exact Piece.noConfusion hx
  obtain ⟨hfl, hcap⟩ := UndoInfo.make_castle_bk st bkCastle hepn
    (by rintro ⟨hx, _⟩; exact absurd hx (by decide))
    (by rintro ⟨hx, _⟩; exact absurd hx (by decide)) ⟨rfl, hgp2⟩
  have hcapn : (UndoInfo.make st bkCastle).capture = none := by
    rw [hcap]
    exact getPiece_none h62all
  rw [executeMove_undoMove_eq]
  have hboards : undoMoveBoards
      (executeMoveBoards st.pieces st.next bkCastle
        (UndoInfo.make st bkCastle))
      st.next (UndoInfo.make st bkCastle) = st.pieces :=
    exec_undo_boards_castle_bk st.pieces st.next bkCastle
      (UndoInfo.make st bkCastle)
      (UndoInfo.make_start st bkCastle) (UndoInfo.make_endSq st bkCastle)
      (by rw [UndoInfo.make_piece]; exact hgp2) hcapn hfl rfl hb'
      hkingn (fun q d hne => disjoint_other hd hkingn hne)
      hrookn (fun q d hne => disjoint_other hd hrookn hne)
      h62all h61all
  rw [hboards]

/-- The execute/undo round trip for the black queen-side castle. -/
theorem executeMove_undoMove_castle_bq (st : GameState)
    (hb : st.boundedB = true) (hd : st.disjointB = true)
    (hcp : st.castlingPlacementB = true)
    (hnext : st.next = Color.black)
    (hright : st.castlingRights &&& CastlingRights.blackQueenSide ≠ 0)
    (hempty : st.occupancy &&& 0xe00000000000000 = 0) :
    (st.executeMove bqCastle).undoMove = st := by
  have hb' := bounded_spec hb
  obtain ⟨_, _, hbq, _⟩ := castlingPlacement_spec hcp
  obtain ⟨hrook, hking⟩ := hbq hright
  have h59all := occupancy_false_all
    (testBit_of_and_eq_zero hempty (by decide) :
      st.occupancy.testBit 59 = false)
  have h58all := occupancy_false_all
    (testBit_of_and_eq_zero hempty (by decide) :
      st.occupancy.testBit 58 = false)
  have hkingn : (st.pieces .king st.next).testBit 60 = true := by
    rw [hnext]
    exact hking
  have hrookn : (st.pieces .rook st.next).testBit 56 = true := by
    rw [hnext]
    exact hrook
  have hgp2 : st.getPiece bqCastle.start = some Piece.king :=
    getPiece_eq hd hkingn
  have hepn : ¬(st.enPassantSquare = bqCastle.endSq ∧
      st.getPiece bqCastle.start = some Piece.pawn) := by
    rintro ⟨_, hpw⟩
    rw [hgp2] at hpw
    injection hpw with hx
    exact Piece.noConfusion hx
  obtain ⟨hfl, hcap⟩ := UndoInfo.make_castle_bq st bqCastle hepn
    (by rintro ⟨hx, _⟩; exact absurd hx (by decide))
    (by rintro ⟨hx, _⟩; exact absurd hx (by decide))
    (by rintro ⟨hx, _⟩; exact absurd hx (by decide)) ⟨rfl, hgp2⟩
  have hcapn : (UndoInfo.make st bqCastle).capture = none := by
    rw [hcap]
    exact getPiece_none h58all
  rw [executeMove_undoMove_eq]
  have hboards : undoMoveBoards
      (executeMoveBoards st.pieces st.next bqCastle
        (UndoInfo.make st bqCastle))
      st.next (UndoInfo.make st bqCastle) = st.pieces :=
    exec_undo_boards_castle_bq st.pieces st.next bqCastle
      (UndoInfo.make st bqCastle)
      (UndoInfo.make_start st bqCastle) (UndoInfo.make_endSq st bqCastle)
      (by rw [UndoInfo.make_piece]; exact hgp2) hcapn hfl rfl hb'
      hkingn (fun q d hne => disjoint_other hd hkingn hne)
      hrookn (fun q d hne => disjoint_other hd hrookn hne)
      h58all h59all
  rw [hboards]

/-- The execute/undo round trip for an en-passant capture: under
en-passant consistency the journal classifies the move as en passant, the
vacated and restored squares are distinct, and the board mutations
cancel. -/
theorem executeMove_undoMove_enpassant (st : GameState) (m : Move)
    (hb : st.boundedB = true) (hd : st.disjointB = true)
    (hepr : st.epRankB = true) (hepc : st.epConsistentB = true)
    (hep64 : st.enPassantSquare < 64)
    (hstart : (st.pieces .pawn st.next).testBit m.start = true)
    (hend : m.endSq = st.enPassantSquare)
    (hpm : m.promotion = none) :
    (st.executeMove m).undoMove = st := by
  have hb' := bounded_spec hb
  obtain ⟨hvac, hopp, _, _⟩ := epConsistent_spec hepc hep64
  rw [them_eq] at hopp
  have hgp : st.getPiece m.start = some Piece.pawn := getPiece_eq hd hstart
  obtain ⟨hfl, hcap⟩ := UndoInfo.make_ep st m ⟨hend.symm, hgp⟩
  have heEmpty := occupancy_false_all hvac
  have hrk := epRank_spec hepr hep64
  have hcne : enPassantCapture st.enPassantSquare ≠ st.enPassantSquare := by
    rcases hrk with hk | hk
    · rw [enPassantCapture, if_pos hk]
      omega
    · rw [enPassantCapture, if_neg (by rw [hk]; decide)]
      unfold Square.rank at hk
      omega
  have hc64 : enPassantCapture st.enPassantSquare < 64 := by
    rcases hrk with hk | hk
    · rw [enPassantCapture, if_pos hk]
      unfold Square.rank at hk
      omega
    · rw [enPassantCapture, if_neg (by rw [hk]; decide)]
      omega
  have hse : m.start ≠ st.enPassantSquare := by
    intro hx
    rw [hx] at hstart
    rw [heEmpty .pawn st.next] at hstart
    exact absurd hstart (by decide)
  have hsc : m.start ≠ enPassantCapture st.enPassantSquare := by
    intro hx
    rw [hx] at hstart
    exact (opponent_ne st.next) (disjoint_testBit hd hstart hopp).2.symm
  rw [executeMove_undoMove_eq]
  have hboards : undoMoveBoards
      (executeMoveBoards st.pieces st.next m (UndoInfo.make st m))
      st.next (UndoInfo.make st m) = st.pieces :=
    exec_undo_boards_ep st.pieces st.next m (UndoInfo.make st m)
      st.enPassantSquare (enPassantCapture st.enPassantSquare)
      (UndoInfo.make_start st m)
      (by rw [UndoInfo.make_endSq]; exact hend)
      (by rw [UndoInfo.make_piece]; exact hgp)
      hcap hfl hpm
      (by rw [UndoInfo.make_enPassant])
      hb' hep64 hc64 hse hcne hsc hstart
      (fun q d hne => disjoint_other hd hstart hne)
      hopp
      (fun q d hne => disjoint_other hd hopp hne)
      heEmpty
  rw [hboards]

/-- The execute/undo round trip for a plain king move: the king sits on
the iterated king square, the destination lies in its step set (so the
move is none of the castle encodings), and the journal classifies as
plain. -/
theorem executeMove_undoMove_king (st : GameState) (m : Move)
    (hb : st.boundedB = true) (hd : st.disjointB = true)
    (hk : st.oneKingB = true)
    (hepr : st.epRankB = true) (hepc : st.epConsistentB = true)
    (hm : m ∈ generatePlainKingMoves st st.next
      (findFirstSet (st.forPiece .king st.next))) :
    (st.executeMove m).undoMove = st := by
  have hb' := bounded_spec hb
  obtain ⟨hstart0, hpm, hdest⟩ := generatePlainKingMoves_mem hb' hm
  have hklt : st.forPiece .king st.next < 2 ^ 64 := hb' .king st.next
  have hk1 : populationCount (st.forPiece .king st.next) = 1 :=
    oneKing_spec hk st.next
  have hkbit : (st.pieces .king st.next).testBit
      (findFirstSet (st.forPiece .king st.next)) = true :=
    (findFirstSet_spec hklt (populationCount_ne_zero hk1)).1
  rw [← hstart0] at hkbit hdest
  apply executeMove_undoMove_standard st m .king hb hd hepr hepc hkbit hdest
  · intro pp hsome
    rw [hpm] at hsome
    exact Option.noConfusion hsome
  · intro _
    refine ⟨?_, ?_, ?_, ?_⟩
    · intro hmeq
      subst hmeq
      have h2 : (kingMovesB wkCastle.start).testBit wkCastle.endSq = true :=
        testBit_and_left hdest
      exact absurd h2 (by decide)
    · intro hmeq
      subst hmeq
      have h2 : (kingMovesB wqCastle.start).testBit wqCastle.endSq = true :=
        testBit_and_left hdest
      exact absurd h2 (by decide)
    · intro hmeq
      subst hmeq
      have h2 : (kingMovesB bkCastle.start).testBit bkCastle.endSq = true :=
        testBit_and_left hdest
      exact absurd h2 (by decide)
    · intro hmeq
      subst hmeq
      have h2 : (kingMovesB bqCastle.start).testBit bqCastle.endSq = true :=
        testBit_and_left hdest
      exact absurd h2 (by decide)

/-- C2 (amended): for every position satisfying the data-model invariants
of the spec together with en-passant consistency (the en-passant square,
when set, is vacant, the opposing pawn to be captured stands behind it,
and its rank matches the side to move), and every move returned by
generateLegalMoves, calling executeMove and then undoMove restores every
field bit-for-bit: the twelve piece-color boards, the side to move, the
castling rights, the en-passant square, the halfmove clock and the undo
stack after the pop. -/
theorem executeMove_undoMove_roundtrip (st : GameState) (m : Move)
    (hinv : st.specInvariants) (hepc : st.epConsistentB = true)
    (hm : m ∈ st.generateLegalMoves) :
    (st.executeMove m).undoMove = st := by
  obtain ⟨hb, hd, hk, hepr, hcp⟩ := hinv
  have hb' := bounded_spec hb
  rcases generateLegalMoves_mem hm with ⟨ctx, hms⟩ | hmc |
    ⟨hep64, ctx, hme⟩ | hmk
  · obtain ⟨piece, hpiece, hstart, hdest, h3⟩ := standardNonPins_mem hb' hms
    have hnk : piece ≠ Piece.king := by
      intro hx
      subst hx
      simp [Piece.nonKing] at hpiece
    exact executeMove_undoMove_standard st m piece hb hd hepr hepc hstart
      hdest (fun pp hp => (h3 (by rw [hp]; exact Option.some_ne_none pp)).1)
      (fun hx => absurd hx hnk)
  · rcases generateCastling_mem hmc with ⟨hnx, hmeq, hr, hocc⟩ |
      ⟨hnx, hmeq, hr, hocc⟩ | ⟨hnx, hmeq, hr, hocc⟩ | ⟨hnx, hmeq, hr, hocc⟩
    · subst hmeq
      exact executeMove_undoMove_castle_wq st hb hd hcp hnx hr hocc
    · subst hmeq
      exact executeMove_undoMove_castle_wk st hb hd hcp hnx hr hocc
    · subst hmeq
      exact executeMove_undoMove_castle_bq st hb hd hcp hnx hr hocc
    · subst hmeq
      exact executeMove_undoMove_castle_bk st hb hd hcp hnx hr hocc
  · obtain ⟨hstart, hend, hpm⟩ := enPassantCaptures_mem hb' hepr hep64 hme
    exact executeMove_undoMove_enpassant st m hb hd hepr hepc hep64 hstart
      hend hpm
  · exact executeMove_undoMove_king st m hb hd hk hepr hepc hmk

/-- Witness for the amended C2 theorem: the double push a2a4 in the
starting position round-trips. -/
theorem executeMove_undoMove_roundtrip_witness :
    (GameState.startingPosition.executeMove
      { start := 8, endSq := 24 }).undoMove = GameState.startingPosition :=
  executeMove_undoMove_roundtrip GameState.startingPosition
    { start := 8, endSq := 24 }
    ⟨by decide, by decide, by decide, by decide, by decide⟩
    (by decide) (by decide)

/-- The position of FEN "7k/8/8/3P4/8/8/8/K7 w c6 - 0 1" (with the
repository's swapped field order): white king a1, white pawn d5, black
king h8, and a spurious en-passant square c6 with no black pawn on c5.
It satisfies all data-model invariants the spec states for a Position,
but not en-passant consistency. -/
def spuriousEpPosition : GameState :=
  { pieces := fun p c =>
      match p, c with
      | .king, .white => 1
      | .pawn, .white => 0x800000000
      | .king, .black => 0x8000000000000000
      | _, _ => 0,
    next := .white,
    castlingRights := 0,
    enPassantSquare := 42,
    uneventfulHalfMoves := 0,
    undoStack := [] }

/-- C2: counterexample to the unamended claim.  spuriousEpPosition
satisfies the data-model invariants the spec lists (bounded boards,
disjoint boards, one king per color, en-passant square on rank 2 or 5,
castling placement), and the generator emits the en-passant capture
d5xc6; but executeMove followed by undoMove materializes a black pawn on
c5 (square 34) that was never there, so the round trip does not restore
the position. -/
theorem executeMove_undoMove_not_roundtrip :
    spuriousEpPosition.specInvariants ∧
    ({ start := 35, endSq := 42 } : Move) ∈
      spuriousEpPosition.generateLegalMoves ∧
    ((spuriousEpPosition.executeMove
        { start := 35, endSq := 42 }).undoMove.pieces Piece.pawn
        Color.black).testBit 34 = true ∧
    (spuriousEpPosition.pieces Piece.pawn Color.black).testBit 34 = false ∧
    (spuriousEpPosition.executeMove
      { start := 35, endSq := 42 }).undoMove ≠ spuriousEpPosition := by
  refine ⟨⟨by decide, by decide, by decide, by decide, by decide⟩, by decide,
    by decide, by decide, ?_⟩
  intro hcon
  have ht : ((spuriousEpPosition.executeMove
      { start := 35, endSq := 42 }).undoMove.pieces Piece.pawn
      Color.black).testBit 34 = true := by decide
  rw [hcon] at ht
  have hf : (spuriousEpPosition.pieces Piece.pawn Color.black).testBit 34 =
      false := by decide
  rw [hf] at ht
  exact absurd ht (by decide)

end Dagor
